import Mathlib

/-! fnos-frpc: process supervision and binary provisioning

A shallow embedding of `process.go` (the `ProcessManager`) and of the
archive / release handling in `version.go` (the `VersionManager`), followed by
theorems about them.

Conventions of the embedding.

* Go's `map[string]*ProcessInfo` is an association list; a record is read with
  `getRecord` and written with `setRecord`.  A `*ProcessInfo` is referenced only
  from the map, so the in-place update `info.Running = false` is a `setRecord`.
* A `*exec.Cmd` is a pair of an allocation identity `ptr` (what the pointer
  comparison `p.Cmd == cmd` looks at) and the pid of the started process.
  Records are built only by `Start`, after `cmd.Start()` succeeded, so `Cmd` and
  `Cmd.Process` are never nil in a record.
* The operating system is explicit state: `World.procs` is the table of every
  process spawned so far, `World.calls` the system calls issued so far, oldest
  first.  What the operating system answers (a stat, a write, a spawn, a kill)
  is an argument of the operation.
* `runtime.GOOS`, `runtime.GOARCH` and the host's `filepath.Base` are the fields
  of a `Host`.  `filepath.Join` and `filepath.Clean` are those of a host whose
  only separator is the slash.
* What an operation does while it holds the registry lock is read off its
  events (`StartEvents`, `StopEvents`, ...): the lock operations, the system
  calls, the waits and the `log.Printf` writes of its body, in order.
-/

namespace FnosFrpc

/-! ## Host -/

/-- The build target: `runtime.GOOS`, `runtime.GOARCH`, and `filepath.Base` of
the target's `path/filepath`. -/
structure Host where
  goos : String
  goarch : String
  base : String → String

/-- The pieces of a path between its slashes. -/
def splitSlash : List Char → List (List Char)
  | [] => [[]]
  | c :: cs =>
    if c = '/' then [] :: splitSlash cs
    else
      match splitSlash cs with
      | [] => [[c]]
      | piece :: pieces => (c :: piece) :: pieces

/-- The loop of `filepath.Clean` over the elements of a path; `out` holds the
elements kept so far, the last one first.  Empty elements and `.` are dropped;
`..` removes the element before it, is dropped at the root, and is kept
otherwise. -/
def cleanElems (rooted : Bool) : List (List Char) → List (List Char) → List (List Char)
  | [], out => out.reverse
  | e :: rest, out =>
    if e = [] ∨ e = ['.'] then cleanElems rooted rest out
    else if e = ['.', '.'] then
      match out with
      | top :: below =>
        if top = ['.', '.'] then cleanElems rooted rest (e :: out)
        else cleanElems rooted rest below
      | [] => if rooted then cleanElems rooted rest [] else cleanElems rooted rest [e]
    else cleanElems rooted rest (e :: out)

/-- The function `filepath.Clean` of a host whose only separator is the slash. -/
def filepathClean (path : String) : String :=
  let rooted : Bool := decide (path.data.head? = some '/')
  let elems := cleanElems rooted (splitSlash path.data) []
  let out := (if rooted then "/" else "") ++ "/".intercalate (elems.map String.mk)
  if out = "" then "." else out

/-- The function `filepath.Join` of a host whose only separator is the slash:
the elements from the first non-empty one on, joined by the separator, and the
result cleaned; the empty string when every element is empty. -/
def filepathJoin (elems : List String) : String :=
  match elems.dropWhile (fun e => e = "") with
  | [] => ""
  | rest => filepathClean ("/".intercalate rest)

/-! ## process.go -/

/-- A started `*exec.Cmd`: the identity of the allocation and `Process.Pid`. -/
structure Cmd where
  ptr : Nat
  pid : Nat
  deriving DecidableEq, Repr

/-- The record type `ProcessInfo`. -/
structure ProcessInfo where
  ServerID : String
  Cmd : Cmd
  LogFile : String
  Running : Bool
  deriving DecidableEq, Repr

/-- The struct `ProcessManager` (the mutex is not state). -/
structure ProcessManager where
  dataDir : String
  processes : List (String × ProcessInfo)
  deriving DecidableEq, Repr

/-- The map read `pm.processes[serverID]`: `none` is `ok = false`. -/
def getRecord : List (String × ProcessInfo) → String → Option ProcessInfo
  | [], _ => none
  | (k, v) :: rest, id => if k = id then some v else getRecord rest id

/-- The map write `pm.processes[serverID] = info`. -/
def setRecord : List (String × ProcessInfo) → String → ProcessInfo →
    List (String × ProcessInfo)
  | [], id, info => [(id, info)]
  | (k, v) :: rest, id, info =>
    if k = id then (id, info) :: rest else (k, v) :: setRecord rest id info

/-- The life of a spawned operating-system process. -/
inductive ProcStatus where
  | live
  | exited
  | killed
  deriving DecidableEq, Repr

/-- One row of the operating system's process table: a process that
`cmd.Start()` created, for which server id, and whether it still runs. -/
structure OsProc where
  serverID : String
  pid : Nat
  status : ProcStatus
  deriving DecidableEq, Repr

/-- A system call issued by the process manager. -/
inductive SysCall where
  | stat (path : String)
  | writeFile (path content : String)
  | openFile (path : String)
  | closeFile (path : String)
  | startProcess (binary : String) (args : List String)
  | kill (cmd : Cmd)
  deriving DecidableEq, Repr

/-- The process manager together with what it acts on. -/
structure World where
  pm : ProcessManager
  procs : List OsProc
  calls : List SysCall
  deriving DecidableEq, Repr

/-- The errors `Start` and `Stop` build with `fmt.Errorf`. -/
inductive ProcError where
  | alreadyRunning (serverID : String)
  | binaryNotFound
  | writeConfigFailed (err : String)
  | createLogFailed (err : String)
  | startFailed (err : String)
  | notRunning (serverID : String)
  | stopFailed (err : String)
  deriving DecidableEq, Repr

/-- What the operating system answers during one `Start`: the error of
`os.Stat`, of `os.WriteFile`, of `os.OpenFile` (each `none` on success), and the
outcome of `cmd.Start()`, the new pid or an error. -/
structure StartEnv where
  stat : Option String
  write : Option String
  openLog : Option String
  spawn : Except String Nat

/-- `NewProcessManager`. -/
def NewProcessManager (dataDir : String) : ProcessManager :=
  { dataDir := dataDir, processes := [] }

/-- `ProcessManager.frpcPath`. -/
def ProcessManager.frpcPath (h : Host) (pm : ProcessManager) : String :=
  let name := if h.goos = "windows" then "frpc.exe" else "frpc"
  filepathJoin [pm.dataDir, "frpc", name]

/-- `ProcessManager.confPath`. -/
def ProcessManager.confPath (pm : ProcessManager) (serverID : String) : String :=
  filepathJoin [pm.dataDir, "conf", serverID ++ ".toml"]

/-- `ProcessManager.logPath`. -/
def ProcessManager.logPath (pm : ProcessManager) (serverID : String) : String :=
  filepathJoin [pm.dataDir, "logs", serverID ++ ".log"]

/-- The registry check that opens `Start`: `info, ok := pm.processes[serverID]; ok && info.Running`. -/
def isRunning (pm : ProcessManager) (serverID : String) : Bool :=
  match getRecord pm.processes serverID with
  | some info => info.Running
  | none => false

/-- `ProcessManager.Start`.  The result is the returned error (`none` is `nil`)
and the world afterwards.  The monitor goroutine that `Start` launches is
`reaper`, run as a later step. -/
def Start (h : Host) (w : World) (serverID tomlContent : String) (env : StartEnv) :
    Option ProcError × World :=
  if isRunning w.pm serverID then
    (some (.alreadyRunning serverID), w)
  else
    let frpcPath := w.pm.frpcPath h
    let w1 := { w with calls := w.calls ++ [SysCall.stat frpcPath] }
    match env.stat with
    | some _ => (some .binaryNotFound, w1)
    | none =>
      let confFile := w.pm.confPath serverID
      let w2 := { w1 with calls := w1.calls ++ [SysCall.writeFile confFile tomlContent] }
      match env.write with
      | some e => (some (.writeConfigFailed e), w2)
      | none =>
        let logFile := w.pm.logPath serverID
        let w3 := { w2 with calls := w2.calls ++ [SysCall.openFile logFile] }
        match env.openLog with
        | some e => (some (.createLogFailed e), w3)
        | none =>
          let w4 := { w3 with calls := w3.calls ++ [SysCall.startProcess frpcPath ["-c", confFile]] }
          match env.spawn with
          | .error e =>
            (some (.startFailed e), { w4 with calls := w4.calls ++ [SysCall.closeFile logFile] })
          | .ok pid =>
            let cmd : Cmd := { ptr := w.procs.length, pid := pid }
            let info : ProcessInfo :=
              { ServerID := serverID, Cmd := cmd, LogFile := logFile, Running := true }
            (none,
              { pm := { w.pm with processes := setRecord w.pm.processes serverID info }
                procs := w.procs ++ [{ serverID := serverID, pid := pid, status := .live }]
                calls := w4.calls })

/-- The body of the monitor goroutine of `Start` once `cmd.Wait()` has returned:
close the log file, then, under the lock, clear `Running` if the record of
`serverID` still holds `cmd`. -/
def reaper (w : World) (serverID : String) (cmd : Cmd) : World :=
  let w1 := { w with calls := w.calls ++ [SysCall.closeFile (w.pm.logPath serverID)] }
  match getRecord w.pm.processes serverID with
  | some p =>
    if p.Cmd.ptr = cmd.ptr then
      { w1 with pm := { w.pm with
          processes := setRecord w.pm.processes serverID { p with Running := false } } }
    else w1
  | none => w1

/-- The effect of `Process.Kill()` on the process table: a kill that succeeds
ends a live process; a kill that fails changes nothing. -/
def killProc (procs : List OsProc) (cmd : Cmd) (ok : Bool) : List OsProc :=
  if ok then
    procs.modify (fun p => if p.status = .live then { p with status := .killed } else p) cmd.ptr
  else procs

/-- `ProcessManager.Stop`; `kill` is the error of `info.Cmd.Process.Kill()`,
`none` on success. -/
def Stop (w : World) (serverID : String) (kill : Option String) : Option ProcError × World :=
  match getRecord w.pm.processes serverID with
  | none => (some (.notRunning serverID), w)
  | some info =>
    if !info.Running then (some (.notRunning serverID), w)
    else
      let w1 := { w with calls := w.calls ++ [SysCall.kill info.Cmd] }
      match kill with
      | some e => (some (.stopFailed e), w1)
      | none =>
        (none,
          { w1 with
            pm := { w.pm with
              processes := setRecord w.pm.processes serverID { info with Running := false } }
            procs := killProc w.procs info.Cmd true })

/-- `ProcessManager.Status`. -/
def Status (w : World) (serverID : String) : Bool × Nat :=
  match getRecord w.pm.processes serverID with
  | none => (false, 0)
  | some info => (info.Running, info.Cmd.pid)

/-- The loop of `StopAll` over the entries of the map; `kill cmd` tells whether
`Kill()` succeeds on `cmd`, and the returned error is dropped, as in the source. -/
def stopAllLoop (kill : Cmd → Bool) :
    List (String × ProcessInfo) → List OsProc → List SysCall →
    List (String × ProcessInfo) × List OsProc × List SysCall
  | [], procs, calls => ([], procs, calls)
  | (id, info) :: rest, procs, calls =>
    if info.Running then
      let r := stopAllLoop kill rest (killProc procs info.Cmd (kill info.Cmd))
        (calls ++ [SysCall.kill info.Cmd])
      ((id, { info with Running := false }) :: r.1, r.2.1, r.2.2)
    else
      let r := stopAllLoop kill rest procs calls
      ((id, info) :: r.1, r.2.1, r.2.2)

/-- `ProcessManager.StopAll`. -/
def StopAll (w : World) (kill : Cmd → Bool) : World :=
  let r := stopAllLoop kill w.pm.processes w.procs w.calls
  { pm := { w.pm with processes := r.1 }, procs := r.2.1, calls := r.2.2 }

/-! ## Runs of the process manager -/

/-- One step of a run: a call of `Start`, `Stop` or `StopAll` with what the
operating system answers, a process ending by itself (`exit`), or the monitor
goroutine of a process getting past `cmd.Wait()` (`reap`). -/
inductive Action where
  | start (serverID tomlContent : String) (env : StartEnv)
  | stop (serverID : String) (kill : Option String)
  | stopAll (kill : Cmd → Bool)
  | exit (ptr : Nat)
  | reap (ptr : Nat)

/-- The step function: `none` when the step cannot happen (only a live process
exits, and `cmd.Wait()` returns only for a process that is no longer live). -/
def step (h : Host) (w : World) : Action → Option World
  | .start serverID tomlContent env => some (Start h w serverID tomlContent env).2
  | .stop serverID kill => some (Stop w serverID kill).2
  | .stopAll kill => some (StopAll w kill)
  | .exit ptr =>
    match w.procs[ptr]? with
    | some p =>
      if p.status = .live then
        some { w with procs := w.procs.set ptr { p with status := .exited } }
      else none
    | none => none
  | .reap ptr =>
    match w.procs[ptr]? with
    | some p =>
      if p.status = .live then none
      else some (reaper w p.serverID { ptr := ptr, pid := p.pid })
    | none => none

/-- A run: the steps one after the other. -/
def exec (h : Host) : World → List Action → Option World
  | w, [] => some w
  | w, a :: rest =>
    match step h w a with
    | some w1 => exec h w1 rest
    | none => none

/-- The world of a fresh `NewProcessManager`: an empty registry, nothing spawned. -/
def initWorld (dataDir : String) : World :=
  { pm := NewProcessManager dataDir, procs := [], calls := [] }

/-- The processes spawned for `serverID` that are live: neither exited nor killed. -/
def liveProcs (w : World) (serverID : String) : List OsProc :=
  w.procs.filter (fun p => p.serverID = serverID ∧ p.status = .live)

/-- Whether the process of `cmd` is live. -/
def isLive (procs : List OsProc) (cmd : Cmd) : Bool :=
  match procs[cmd.ptr]? with
  | some p => p.status = .live
  | none => false

/-- Every kill that this `StopAll` would issue on a live process succeeds. -/
def killsEffective (w : World) (kill : Cmd → Bool) : Bool :=
  w.pm.processes.all (fun e => !e.2.Running || !isLive w.procs e.2.Cmd || kill e.2.Cmd)

/-- Along the run, every `StopAll` kills effectively. -/
def stopAllEffective (h : Host) : World → List Action → Bool
  | _, [] => true
  | w, a :: rest =>
    (match a with
      | .stopAll kill => killsEffective w kill
      | _ => true) &&
    (match step h w a with
      | some w1 => stopAllEffective h w1 rest
      | none => true)

/-- The function `filepath.Base` of a host whose only separator is the slash. -/
def unixBase (path : String) : String :=
  if path = "" then "."
  else
    let stripped := (path.data.reverse.dropWhile (· = '/')).reverse
    let last := (stripped.reverse.takeWhile (· ≠ '/')).reverse
    if last = [] then "/" else String.mk last

/-- A Linux host on amd64. -/
def linuxHost : Host :=
  { goos := "linux", goarch := "amd64", base := unixBase }

/-- The answers of an operating system on which every call of a `Start`
succeeds and the spawned process gets `pid`. -/
def okEnv (pid : Nat) : StartEnv :=
  { stat := none, write := none, openLog := none, spawn := .ok pid }

/-- The record that a successful `Start` stores. -/
def startedRecord (w : World) (serverID : String) (pid : Nat) : ProcessInfo :=
  { ServerID := serverID, Cmd := { ptr := w.procs.length, pid := pid },
    LogFile := w.pm.logPath serverID, Running := true }

/-- A world with one running server: `s1`, started from a fresh manager. -/
def oneRunning : World :=
  (Start linuxHost (initWorld "/data") "s1" "cfg" (okEnv 4242)).2

/-- The supervision invariant: every live process is the handle of a running
record, stored under the server id it was spawned for. -/
def Supervised (w : World) : Prop :=
  ∀ i p, w.procs[i]? = some p → p.status = .live →
    ∃ info, getRecord w.pm.processes p.serverID = some info ∧
      info.Cmd.ptr = i ∧ info.Running = true

/-- A run in which a kill of `StopAll` fails while the process lives on:
`s1` is started, `StopAll` marks it stopped though its kill failed, and `s1`
is started again. -/
def lingeringRun : List Action :=
  [.start "s1" "cfg" (okEnv 100), .stopAll (fun _ => false), .start "s1" "cfg" (okEnv 200)]

/-- A run in which every `StopAll` kills effectively: a failed `Stop`, an exit
that is reaped, two restarts and a `StopAll` between them. -/
def cleanRun : List Action :=
  [.start "s1" "cfg" (okEnv 100), .stop "s1" (some "operation not permitted"), .exit 0,
   .reap 0, .start "s1" "cfg" (okEnv 200), .start "s2" "cfg" (okEnv 300),
   .stopAll (fun _ => true), .start "s1" "cfg" (okEnv 400)]

/-- The world at the end of `cleanRun`. -/
def cleanRunEnd : World :=
  (exec linuxHost (initWorld "/data") cleanRun).getD (initWorld "/data")

/-- Whether a step is neither a `Stop` of `serverID`, nor a `StopAll`, nor the
reaper of the process with handle `ptr`. -/
def Action.leaves (serverID : String) (ptr : Nat) : Action → Bool
  | .stop id _ => decide (id ≠ serverID)
  | .stopAll _ => false
  | .reap p => decide (p ≠ ptr)
  | .start _ _ _ => true
  | .exit _ => true

/-! ## process.go: GetLogs -/

/-- What `os.ReadFile` answers: the content, an error for which
`os.IsNotExist` holds, or another error. -/
inductive ReadResult where
  | ok (content : String)
  | notExist
  | failed (err : String)
  deriving DecidableEq, Repr

/-- The call `strings.Split(s, "\n")`, on the characters of `s`: the pieces between the
newlines, one more than there are newlines. -/
def splitNewline : List Char → List (List Char)
  | [] => [[]]
  | c :: cs =>
    if c = '\n' then [] :: splitNewline cs
    else
      match splitNewline cs with
      | [] => [[c]]
      | piece :: pieces => (c :: piece) :: pieces

/-- The call `strings.Join(a, "\n")`, on characters. -/
def joinNewline : List (List Char) → List Char
  | [] => []
  | [piece] => piece
  | piece :: rest => piece ++ '\n' :: joinNewline rest

/-- `ProcessManager.GetLogs`; `fs` is what `os.ReadFile` answers for a path.  The
result is the returned string and the returned error (`none` is `nil`). -/
def GetLogs (pm : ProcessManager) (fs : String → ReadResult) (serverID : String)
    (lines : Int) : String × Option String :=
  let logFile := pm.logPath serverID
  match fs logFile with
  | .notExist => ("", none)
  | .failed err => ("", some err)
  | .ok content =>
    if lines > 0 then
      let allLines := splitNewline content.data
      let allLines :=
        if (allLines.length : Int) > lines then
          allLines.drop (allLines.length - lines.toNat)
        else allLines
      (String.mk (joinNewline allLines), none)
    else (content, none)

/-- The lines of a text file: the pieces between the newlines, where a newline
that ends the file ends its last line and starts no further one. -/
def textLines (content : String) : List String :=
  let pieces := (splitNewline content.data).map String.mk
  if pieces.getLast? = some "" then pieces.dropLast else pieces

/-- A file system whose every log read gives `content`. -/
def logFs (content : String) : String → ReadResult :=
  fun _ => .ok content

/-- A log of ten lines, each ended by a newline, as a process writes it. -/
def tenLineLog : String :=
  "l1\nl2\nl3\nl4\nl5\nl6\nl7\nl8\nl9\nl10\n"

/-! ## version.go -/

/-- The struct `GithubAsset`. -/
structure GithubAsset where
  Name : String
  BrowserDownloadURL : String
  deriving DecidableEq, Repr

/-- The struct `GithubRelease`. -/
structure GithubRelease where
  TagName : String
  Assets : List GithubAsset
  deriving DecidableEq, Repr

/-- The errors of the provisioning code; `lib` carries an error of the standard
library that the code returns as it is. -/
inductive InstallError where
  | lib (err : String)
  | noMatchingAsset (goos goarch pattern : String)
  | gzipOpenFailed (err : String)
  | tarReadError (err : String)
  | notFoundInZip
  | notFoundInTarGz
  | unsupportedFormat
  | fetchFailed (err : String)
  | apiStatus (code : Nat)
  | parseFailed (err : String)
  | downloadFailed (err : String)
  | downloadStatus (code : Nat)
  | notInstalled
  | versionFailed (err : String)
  deriving DecidableEq, Repr

/-- `frpcBinaryName`. -/
def frpcBinaryName (h : Host) : String :=
  if h.goos = "windows" then "frpc.exe" else "frpc"

/-- The call `strings.TrimPrefix(s, "v")`. -/
def trimLeadingV (s : String) : String :=
  match s.data with
  | 'v' :: rest => String.mk rest
  | _ => s

/-- `assetPattern`: the expected file name and `isZip`. -/
def assetPattern (h : Host) (version : String) : String × Bool :=
  let osName := h.goos
  let arch := h.goarch
  let ver := trimLeadingV version
  if osName = "windows" then
    ("frp_" ++ ver ++ "_" ++ osName ++ "_" ++ arch ++ ".zip", true)
  else
    ("frp_" ++ ver ++ "_" ++ osName ++ "_" ++ arch ++ ".tar.gz", false)

/-- The loop of `InstallFromGitHub` over `release.Assets`: `downloadURL` starts
empty and takes the URL of the first asset named `pattern`, where the loop
breaks. -/
def findDownloadURL (pattern : String) : List GithubAsset → String
  | [] => ""
  | asset :: rest =>
    if asset.Name = pattern then asset.BrowserDownloadURL
    else findDownloadURL pattern rest

/-- The asset selection of `InstallFromGitHub` (lines 110 to 122): the pattern,
the loop, and the test `downloadURL == ""`.  The value on success is the
download URL, which is all the code keeps of the asset. -/
def selectAsset (h : Host) (release : GithubRelease) : Except InstallError String :=
  let pattern := (assetPattern h release.TagName).1
  let downloadURL := findDownloadURL pattern release.Assets
  if downloadURL = "" then .error (.noMatchingAsset h.goos h.goarch pattern)
  else .ok downloadURL

/-- The bytes of a file. -/
abbrev Bytes := List Nat

/-- An entry of a zip archive, a `*zip.File`: its stored name, whether
`FileInfo().IsDir()` holds, whether `FileInfo().Mode().IsRegular()` holds (a
symbolic link is neither; the code never asks), the error of `Open()` if any,
the bytes its reader delivers and the error that ends the reading if any. -/
structure ZipFile where
  Name : String
  IsDir : Bool
  IsRegular : Bool
  openErr : Option String
  body : Bytes
  readErr : Option String
  deriving DecidableEq, Repr

/-- The constant `tar.TypeReg`, the character `0`. -/
def tarTypeReg : Nat := 48

/-- The constant `tar.TypeDir`, the character `5`. -/
def tarTypeDir : Nat := 53

/-- An entry of a tar stream: the header that `tr.Next()` returns and what
reading `tr` delivers for it. -/
structure TarEntry where
  Name : String
  Typeflag : Nat
  body : Bytes
  readErr : Option String
  deriving DecidableEq, Repr

/-- A tar stream: the entries `tr.Next()` returns one after the other, and what
it returns after them: an error, or `io.EOF` (`none`). -/
structure TarStream where
  entries : List TarEntry
  nextErr : Option String
  deriving DecidableEq, Repr

/-- The file at `archivePath` as the readers see it: what `zip.OpenReader`
answers, the error of `os.Open` if any, and what `gzip.NewReader` answers.  The
two views are independent: a file may open in both formats. -/
structure Archive where
  zip : Except String (List ZipFile)
  openErr : Option String
  gzip : Except String TarStream

/-- What the operating system answers about the install path during one
extraction attempt: the error of `os.OpenFile` if any, and, if writing to the
file fails, after how many bytes and with which error. -/
structure DstEnv where
  openErr : Option String
  writeFail : Option (Nat × String)
  deriving DecidableEq, Repr

/-- The call `io.Copy(outFile, src)`: what ends up in the file and the returned error.
A write error within the body comes first; otherwise the whole body is written
and the error is that of the reading. -/
def ioCopy (env : DstEnv) (body : Bytes) (readErr : Option String) : Bytes × Option String :=
  match env.writeFail with
  | some (k, err) =>
    if k < body.length then (body.take k, some err) else (body, readErr)
  | none => (body, readErr)

/-- The part that both extractors share once an entry is chosen: open the install
path with `O_CREATE|O_WRONLY|O_TRUNC`, copy, close.  `dst` is the content of the
install path, `none` when the file does not exist. -/
def writeBinary (env : DstEnv) (body : Bytes) (readErr : Option String)
    (dst : Option Bytes) : Option InstallError × Option Bytes :=
  match env.openErr with
  | some err => (some (.lib err), dst)
  | none =>
    let r := ioCopy env body readErr
    (r.2.map InstallError.lib, some r.1)

/-- The loop of `extractFromZip` over `r.File`. -/
def zipLoop (h : Host) (env : DstEnv) : List ZipFile → Option Bytes →
    Option InstallError × Option Bytes
  | [], dst => (some .notFoundInZip, dst)
  | f :: rest, dst =>
    if h.base f.Name = frpcBinaryName h ∧ f.IsDir = false then
      match f.openErr with
      | some err => (some (.lib err), dst)
      | none => writeBinary env f.body f.readErr dst
    else zipLoop h env rest dst

/-- `VersionManager.extractFromZip`: the returned error and the install path
afterwards. -/
def extractFromZip (h : Host) (env : DstEnv) (a : Archive) (dst : Option Bytes) :
    Option InstallError × Option Bytes :=
  match a.zip with
  | .error err => (some (.lib err), dst)
  | .ok files => zipLoop h env files dst

/-- The loop of `extractFromTarGz` over the headers of the tar stream. -/
def tarLoop (h : Host) (env : DstEnv) (nextErr : Option String) :
    List TarEntry → Option Bytes → Option InstallError × Option Bytes
  | [], dst =>
    match nextErr with
    | none => (some .notFoundInTarGz, dst)
    | some err => (some (.tarReadError err), dst)
  | header :: rest, dst =>
    if h.base header.Name = frpcBinaryName h ∧ header.Typeflag = tarTypeReg then
      writeBinary env header.body header.readErr dst
    else tarLoop h env nextErr rest dst

/-- `VersionManager.extractFromTarGz`. -/
def extractFromTarGz (h : Host) (env : DstEnv) (a : Archive) (dst : Option Bytes) :
    Option InstallError × Option Bytes :=
  match a.openErr with
  | some err => (some (.lib err), dst)
  | none =>
    match a.gzip with
    | .error err => (some (.gzipOpenFailed err), dst)
    | .ok stream => tarLoop h env stream.nextErr stream.entries dst

/-- `VersionManager.extractFrpc`: zip first, then tar.gz on what the zip attempt
left, and one error for every failure of both. -/
def extractFrpc (h : Host) (envZip envTar : DstEnv) (a : Archive) (dst : Option Bytes) :
    Option InstallError × Option Bytes :=
  match extractFromZip h envZip a dst with
  | (none, dst1) => (none, dst1)
  | (some _, dst1) =>
    match extractFromTarGz h envTar a dst1 with
    | (none, dst2) => (none, dst2)
    | (some _, dst2) => (some .unsupportedFormat, dst2)

/-- An entry of a zip archive matches: its base name is the binary name and it
is not a directory. -/
def zipMatches (h : Host) (f : ZipFile) : Bool :=
  decide (h.base f.Name = frpcBinaryName h) && !f.IsDir

/-- An entry of a tar stream matches: its base name is the binary name and it
is a regular file. -/
def tarMatches (h : Host) (e : TarEntry) : Bool :=
  decide (h.base e.Name = frpcBinaryName h) && decide (e.Typeflag = tarTypeReg)

/-- The install path can be opened and takes `n` bytes. -/
def DstEnv.accepts (env : DstEnv) (n : Nat) : Prop :=
  env.openErr = none ∧ ∀ k err, env.writeFail = some (k, err) → n ≤ k

/-- An operating system on which the install path opens and every write succeeds. -/
def okDst : DstEnv :=
  { openErr := none, writeFail := none }

/-- A zip archive, not a gzip stream, that holds `frpc-old` before `frpc` at a
nested path, and a second `frpc` after it. -/
def nestedZip : Archive :=
  { zip := .ok
      [{ Name := "frp_0.53.0_linux_amd64/", IsDir := true, IsRegular := false,
         openErr := none, body := [], readErr := none },
       { Name := "frp_0.53.0_linux_amd64/frpc-old", IsDir := false, IsRegular := true,
         openErr := none, body := [9, 9], readErr := none },
       { Name := "frp_0.53.0_linux_amd64/frpc", IsDir := false, IsRegular := true,
         openErr := none, body := [1, 2, 3], readErr := none },
       { Name := "backup/frpc", IsDir := false, IsRegular := true,
         openErr := none, body := [7], readErr := none }]
    openErr := none
    gzip := .error "gzip: invalid header" }

/-- A zip archive, not a gzip stream, without any entry named `frpc`. -/
def zipWithoutFrpc : Archive :=
  { zip := .ok
      [{ Name := "frp_0.53.0_linux_amd64/frps", IsDir := false, IsRegular := true,
         openErr := none, body := [4, 5], readErr := none },
       { Name := "frp_0.53.0_linux_amd64/frpc-old", IsDir := false, IsRegular := true,
         openErr := none, body := [9, 9], readErr := none }]
    openErr := none
    gzip := .error "gzip: invalid header" }

/-- The constant `tar.TypeSymlink`, the character `2`. -/
def tarTypeSymlink : Nat := 50

/-- The entries of a zip archive in which a symbolic link named `frpc` (its
content is the path it points to, `../x`) comes before a regular file named
`frpc`. -/
def symlinkZipFiles : List ZipFile :=
  [{ Name := "links/frpc", IsDir := false, IsRegular := false,
     openErr := none, body := [46, 46, 47, 120], readErr := none },
   { Name := "frp_0.53.0_linux_amd64/frpc", IsDir := false, IsRegular := true,
     openErr := none, body := [1, 2, 3], readErr := none }]

/-- The zip archive of `symlinkZipFiles`; it is not a gzip stream. -/
def symlinkZip : Archive :=
  { zip := .ok symlinkZipFiles
    openErr := none
    gzip := .error "gzip: invalid header" }

/-- The entries of a tar stream in which a symbolic link named `frpc` (it has no
content) comes before a regular file named `frpc`. -/
def symlinkTarEntries : List TarEntry :=
  [{ Name := "links/frpc", Typeflag := tarTypeSymlink, body := [], readErr := none },
   { Name := "frp_0.53.0_linux_amd64/frpc", Typeflag := tarTypeReg, body := [1, 2, 3],
     readErr := none }]

/-- The tar.gz archive of `symlinkTarEntries`; it is not a zip archive. -/
def symlinkTarGz : Archive :=
  { zip := .error "zip: not a valid zip file"
    openErr := none
    gzip := .ok { entries := symlinkTarEntries, nextErr := none } }

/-- The criterion of a match read as "regular", on a zip entry: its base name is
the binary name and it is a regular file. -/
def zipRegularNamed (h : Host) (f : ZipFile) : Bool :=
  decide (h.base f.Name = frpcBinaryName h) && f.IsRegular

/-- The criterion of a match read as "not a directory", on a tar entry: its base
name is the binary name and its type is not `tar.TypeDir`. -/
def tarNonDirNamed (h : Host) (e : TarEntry) : Bool :=
  decide (h.base e.Name = frpcBinaryName h) && decide (e.Typeflag ≠ tarTypeDir)

/-- The release of the example: version `v0.53.0` with a Linux and a Windows
asset. -/
def exampleRelease : GithubRelease :=
  { TagName := "v0.53.0"
    Assets :=
      [{ Name := "frp_0.53.0_linux_amd64.tar.gz",
         BrowserDownloadURL := "https://example.org/frp_0.53.0_linux_amd64.tar.gz" },
       { Name := "frp_0.53.0_windows_amd64.zip",
         BrowserDownloadURL := "https://example.org/frp_0.53.0_windows_amd64.zip" }] }

/-- A release whose only asset has the expected name and no download URL, as
decoded from a JSON asset without the field `browser_download_url`. -/
def releaseWithoutURL : GithubRelease :=
  { TagName := "v0.53.0"
    Assets := [{ Name := "frp_0.53.0_linux_amd64.tar.gz", BrowserDownloadURL := "" }] }

/-- A Linux host on arm64. -/
def linuxArm64 : Host :=
  { goos := "linux", goarch := "arm64", base := unixBase }

/-! ## Further definitions: status, bulk stop, locking -/

/-- `ProcessManager.Status` as a step of a run: the answer and the world
afterwards.  The body of `Status` assigns to nothing and calls nothing, so the
world afterwards is the world before. -/
def StatusStep (w : World) (serverID : String) : (Bool × Nat) × World :=
  (Status w serverID, w)

/-- The version of a tag without its leading `v`, as the specification words it:
the first character is dropped when it is `v`. -/
def withoutLeadingV (version : String) : String :=
  if version.data.head? = some 'v' then String.mk version.data.tail else version

/-- A world with three records: `a` and `c` running, `b` stopped. -/
def threeServers : World :=
  { pm :=
      { dataDir := "/data"
        processes :=
          [("a", { ServerID := "a", Cmd := { ptr := 0, pid := 10 },
                   LogFile := "/data/logs/a.log", Running := true }),
           ("b", { ServerID := "b", Cmd := { ptr := 1, pid := 11 },
                   LogFile := "/data/logs/b.log", Running := false }),
           ("c", { ServerID := "c", Cmd := { ptr := 2, pid := 12 },
                   LogFile := "/data/logs/c.log", Running := true })] }
    procs :=
      [{ serverID := "a", pid := 10, status := .live },
       { serverID := "b", pid := 11, status := .exited },
       { serverID := "c", pid := 12, status := .live }]
    calls := [] }

/-- The zip attempt gets as far as opening the install path for writing: the
archive opens as a zip, holds a matching entry, the first one opens, and
`os.OpenFile` on the install path succeeds (which truncates the file). -/
def zipReachesCopy (h : Host) (env : DstEnv) (a : Archive) : Bool :=
  match a.zip with
  | .error _ => false
  | .ok files =>
    match files.find? (zipMatches h) with
    | some f => f.openErr.isNone && env.openErr.isNone
    | none => false

/-- The tar.gz attempt gets as far as opening the install path for writing. -/
def tarReachesCopy (h : Host) (env : DstEnv) (a : Archive) : Bool :=
  match a.openErr with
  | some _ => false
  | none =>
    match a.gzip with
    | .error _ => false
    | .ok stream =>
      match stream.entries.find? (tarMatches h) with
      | some _ => env.openErr.isNone
      | none => false

/-- A zip archive, not a gzip stream, whose entry `frpc` delivers two bytes and
then fails to read (a checksum error, a truncated download). -/
def brokenZip : Archive :=
  { zip := .ok
      [{ Name := "frp_0.53.0_linux_amd64/frpc", IsDir := false, IsRegular := true,
         openErr := none, body := [1, 2], readErr := some "zip: checksum error" }]
    openErr := none
    gzip := .error "gzip: invalid header" }

/-- An event of one operation of the process manager: taking or releasing the
registry lock `pm.mu` (exclusively or shared), a system call, `cmd.Wait()`, or
a `log.Printf`, which writes its line to standard error. -/
inductive Event where
  | lock
  | unlock
  | rlock
  | runlock
  | sys (call : SysCall)
  | wait (cmd : Cmd)
  | logPrintf (line : String)
  deriving DecidableEq, Repr

/-- The system calls that an operation added to the world's record of calls. -/
def newCalls (before after : World) : List SysCall :=
  after.calls.drop before.calls.length

/-- The system calls among some events, in order. -/
def sysCalls : List Event → List SysCall
  | [] => []
  | .sys call :: rest => call :: sysCalls rest
  | _ :: rest => sysCalls rest

/-- The events of `Start`, statement by statement (process.go 55 to 115):
`pm.mu.Lock()` at line 56, the deferred unlock at each return, and between them
the running check, the stat, the config write, the log-file open, the spawn
with the close of the log file when it fails, and the `log.Printf` of line 113
when it succeeds. -/
def StartEvents (h : Host) (w : World) (serverID tomlContent : String) (env : StartEnv) :
    List Event :=
  [Event.lock] ++
    (if isRunning w.pm serverID then []
      else
        Event.sys (.stat (w.pm.frpcPath h)) ::
          match env.stat with
          | some _ => []
          | none =>
            Event.sys (.writeFile (w.pm.confPath serverID) tomlContent) ::
              match env.write with
              | some _ => []
              | none =>
                Event.sys (.openFile (w.pm.logPath serverID)) ::
                  match env.openLog with
                  | some _ => []
                  | none =>
                    Event.sys (.startProcess (w.pm.frpcPath h)
                        ["-c", w.pm.confPath serverID]) ::
                      match env.spawn with
                      | .error _ => [Event.sys (.closeFile (w.pm.logPath serverID))]
                      | .ok pid =>
                        [Event.logPrintf ("frpc started for server " ++ serverID ++
                          " (PID: " ++ toString pid ++ ")")]) ++
    [Event.unlock]

/-- The events of `Stop`, statement by statement (process.go 117 to 133): the
lock at line 118, the deferred unlock at each return, the kill, and after a
kill that succeeds the `log.Printf` of line 131. -/
def StopEvents (w : World) (serverID : String) (kill : Option String) : List Event :=
  [Event.lock] ++
    (match getRecord w.pm.processes serverID with
      | none => []
      | some info =>
        if !info.Running then []
        else
          Event.sys (.kill info.Cmd) ::
            match kill with
            | some _ => []
            | none => [Event.logPrintf ("frpc stopped for server " ++ serverID)]) ++
    [Event.unlock]

/-- The events of the loop of `StopAll` (process.go 177 to 183): for each
running record the kill and the `log.Printf` of line 181. -/
def stopAllEvents : List (String × ProcessInfo) → List Event
  | [] => []
  | (id, info) :: rest =>
    if info.Running then
      Event.sys (.kill info.Cmd) ::
        Event.logPrintf ("frpc stopped for server " ++ id ++ " (shutdown)") ::
        stopAllEvents rest
    else stopAllEvents rest

/-- The events of `StopAll`: the lock at line 174, the loop, the deferred
unlock. -/
def StopAllEvents (w : World) : List Event :=
  [Event.lock] ++ stopAllEvents w.pm.processes ++ [Event.unlock]

/-- The events of `Status` (process.go 135 to 149): the read lock, the deferred
read unlock, and nothing between them but reads of the record. -/
def StatusEvents : List Event :=
  [Event.rlock, Event.runlock]

/-- The events of the monitor goroutine (process.go 102 to 111): `cmd.Wait()`,
`lf.Close()`, then the lock and the unlock around the update of the record, and
the `log.Printf` of line 110 after the unlock. -/
def reaperEvents (w : World) (serverID : String) (cmd : Cmd) : List Event :=
  [Event.wait cmd, Event.sys (.closeFile (w.pm.logPath serverID)), Event.lock, Event.unlock,
    Event.logPrintf ("frpc process for server " ++ serverID ++ " exited")]

/-- Blocking work: waiting for a process, file operations (a `log.Printf` is a
write to standard error), spawning a process.  Sending a kill signal and the
lock operations themselves are not. -/
def Event.blocking : Event → Bool
  | .wait _ => true
  | .sys (.kill _) => false
  | .sys _ => true
  | .logPrintf _ => true
  | _ => false

/-- No blocking event happens while the lock is held; `held` tells whether the
lock is held at the start of the events. -/
def lockClean : Bool → List Event → Bool
  | _, [] => true
  | held, e :: rest =>
    match e with
    | .lock => lockClean true rest
    | .rlock => lockClean true rest
    | .unlock => lockClean false rest
    | .runlock => lockClean false rest
    | _ => (!held || !e.blocking) && lockClean held rest

/-! ## version.go: installing -/

/-- An `*http.Response`: the status code, the bytes the body delivers, and the
error that ends the reading of the body, if any. -/
structure HttpResponse where
  StatusCode : Nat
  Body : Bytes
  bodyErr : Option String
  deriving DecidableEq, Repr

/-- What the world answers during one install: `http.Get` of the release
metadata, the JSON decoder on its response, `http.Get` of a download URL, the
scratch file (`os.Create` and the writes to it), how the archive readers see a
scratch file of a given content, the install path during the zip and the tar.gz
attempt, the error of `os.Remove` of the scratch file if any, and what running
the installed binary with `--version` gives. -/
structure InstallEnv where
  getLatest : Except String HttpResponse
  decode : HttpResponse → Except String GithubRelease
  download : String → Except String HttpResponse
  scratch : DstEnv
  view : Bytes → Archive
  envZip : DstEnv
  envTar : DstEnv
  remove : Option String
  run : Bytes → Except String String

/-- The files an install acts on: the installed binary and the scratch file,
each `none` when absent. -/
structure InstallState where
  binary : Option Bytes
  scratch : Option Bytes
  deriving DecidableEq, Repr

/-- What an install returns, the version string and the error (`none` is
`nil`), and the files afterwards. -/
structure InstallResult where
  version : String
  err : Option InstallError
  binary : Option Bytes
  scratch : Option Bytes
  deriving DecidableEq, Repr

/-- The predicate `unicode.IsSpace`. -/
def isSpace (c : Char) : Bool :=
  let n := c.toNat
  n == 9 || n == 10 || n == 11 || n == 12 || n == 13 || n == 32 || n == 133 || n == 160 ||
    n == 5760 || (8192 ≤ n && n ≤ 8202) || n == 8232 || n == 8233 || n == 8239 ||
    n == 8287 || n == 12288

/-- The call `strings.TrimSpace(s)`. -/
def trimSpace (s : String) : String :=
  String.mk ((s.data.dropWhile isSpace).reverse.dropWhile isSpace).reverse

/-- `VersionManager.GetCurrentVersion`: the returned string and error.  The
stat of the install path fails when the file is absent. -/
def GetCurrentVersion (env : InstallEnv) (binary : Option Bytes) :
    String × Option InstallError :=
  match binary with
  | none => ("", some .notInstalled)
  | some content =>
    match env.run content with
    | .error err => ("", some (.versionFailed err))
    | .ok out => (trimSpace out, none)

/-- `VersionManager.GetLatestRelease`. -/
def GetLatestRelease (env : InstallEnv) : Except InstallError GithubRelease :=
  match env.getLatest with
  | .error err => .error (.fetchFailed err)
  | .ok resp =>
    if resp.StatusCode ≠ 200 then .error (.apiStatus resp.StatusCode)
    else
      match env.decode resp with
      | .error err => .error (.parseFailed err)
      | .ok release => .ok release

/-- The download of `InstallFromGitHub` (lines 127 to 135): `http.Get` and the
test of the status code. -/
def downloadAsset (env : InstallEnv) (downloadURL : String) :
    Except InstallError HttpResponse :=
  match env.download downloadURL with
  | .error err => .error (.downloadFailed err)
  | .ok resp =>
    if resp.StatusCode ≠ 200 then .error (.downloadStatus resp.StatusCode) else .ok resp

/-- The call `os.Remove(tmpFile)`, whose error the code drops: the scratch file
afterwards. -/
def removeScratch (env : InstallEnv) (scratch : Option Bytes) : Option Bytes :=
  match env.remove with
  | none => none
  | some _ => scratch

/-- The end that both installs share after the scratch file is written:
extract, remove the scratch file, ask the installed binary for its version and
drop the error of that (`version, _ := vm.GetCurrentVersion()`).  When the
extraction fails, `InstallFromUpload` removes the scratch file and
`InstallFromGitHub` leaves it (`removeOnError`). -/
def extractAndReport (h : Host) (env : InstallEnv) (removeOnError : Bool)
    (binary scratch : Option Bytes) : InstallResult :=
  match extractFrpc h env.envZip env.envTar (env.view (scratch.getD [])) binary with
  | (some err, binary1) =>
    { version := "", err := some err, binary := binary1,
      scratch := if removeOnError then removeScratch env scratch else scratch }
  | (none, binary1) =>
    { version := (GetCurrentVersion env binary1).1, err := none, binary := binary1,
      scratch := removeScratch env scratch }

/-- `VersionManager.InstallFromGitHub`. -/
def InstallFromGitHub (h : Host) (env : InstallEnv) (st : InstallState) : InstallResult :=
  match GetLatestRelease env with
  | .error err => { version := "", err := some err, binary := st.binary, scratch := st.scratch }
  | .ok release =>
    match selectAsset h release with
    | .error err =>
      { version := "", err := some err, binary := st.binary, scratch := st.scratch }
    | .ok downloadURL =>
      match downloadAsset env downloadURL with
      | .error err =>
        { version := "", err := some err, binary := st.binary, scratch := st.scratch }
      | .ok resp =>
        match writeBinary env.scratch resp.Body resp.bodyErr st.scratch with
        | (some err, scratch1) =>
          { version := "", err := some err, binary := st.binary, scratch := scratch1 }
        | (none, scratch1) => extractAndReport h env false st.binary scratch1

/-- `VersionManager.InstallFromUpload`; the reader delivers `body` and then ends
with `readErr`, if any. -/
def InstallFromUpload (h : Host) (env : InstallEnv) (st : InstallState) (body : Bytes)
    (readErr : Option String) : InstallResult :=
  match writeBinary env.scratch body readErr st.scratch with
  | (some err, scratch1) =>
    { version := "", err := some err, binary := st.binary, scratch := scratch1 }
  | (none, scratch1) => extractAndReport h env true st.binary scratch1

/-- A world in which everything succeeds: the release of the example, a
download that delivers three bytes, which the readers see as `nestedZip`, and
an installed binary that prints its version. -/
def goodInstallEnv : InstallEnv :=
  { getLatest := .ok { StatusCode := 200, Body := [123, 125], bodyErr := none }
    decode := fun _ => .ok exampleRelease
    download := fun _ => .ok { StatusCode := 200, Body := [80, 75, 3], bodyErr := none }
    scratch := okDst
    view := fun _ => nestedZip
    envZip := okDst
    envTar := okDst
    remove := none
    run := fun _ => .ok "0.53.0\n" }

/-- The same world, except that the installed binary cannot be run, as when the
archive holds a binary for another architecture. -/
def unrunnableEnv : InstallEnv :=
  { goodInstallEnv with run := fun _ => .error "exec format error" }

/-! ## Theorems: process.go -/

theorem getRecord_setRecord_same (m : List (String × ProcessInfo)) (id : String)
    (info : ProcessInfo) : getRecord (setRecord m id info) id = some info := by
  induction m with
  | nil => simp [setRecord, getRecord]
  | cons e rest ih =>
    obtain ⟨k, v⟩ := e
    by_cases hk : k = id
    · simp [setRecord, getRecord, hk]
    · simp [setRecord, getRecord, hk, ih]

theorem getRecord_setRecord_other (m : List (String × ProcessInfo)) (id id2 : String)
    (info : ProcessInfo) (hne : id2 ≠ id) :
    getRecord (setRecord m id info) id2 = getRecord m id2 := by
  induction m with
  | nil => simp [setRecord, getRecord, Ne.symm hne]
  | cons e rest ih =>
    obtain ⟨k, v⟩ := e
    by_cases hk : k = id
    · subst hk
      simp [setRecord, getRecord, Ne.symm hne]
    · by_cases hk2 : k = id2
      · subst hk2
        simp [setRecord, getRecord, hne]
      · simp [setRecord, getRecord, hk, hk2, ih]

/-- Writing under a key that has a record keeps the keys of the registry. -/
theorem setRecord_keys (m : List (String × ProcessInfo)) (id : String)
    (old info : ProcessInfo) (hrec : getRecord m id = some old) :
    (setRecord m id info).map Prod.fst = m.map Prod.fst := by
  induction m with
  | nil => simp [getRecord] at hrec
  | cons e rest ih =>
    obtain ⟨k, v⟩ := e
    by_cases hk : k = id
    · simp [setRecord, hk]
    · simp only [getRecord, hk, if_false] at hrec
      simp [setRecord, hk, ih hrec]

/-- C1: for every world and every server id whose record exists with
`Running = true`, `Start` returns the already-running error and leaves the whole
world as it was: the registry is unchanged, no process is spawned, and no system
call is issued (no stat of the binary, no config write, no log-file open),
whatever the operating system would have answered. -/
theorem C1_start_running_rejected (h : Host) (w : World) (serverID tomlContent : String)
    (env : StartEnv) (info : ProcessInfo)
    (hrec : getRecord w.pm.processes serverID = some info) (hrun : info.Running = true) :
    Start h w serverID tomlContent env = (some (.alreadyRunning serverID), w) := by
  simp [Start, isRunning, hrec, hrun]

/-- The witness of C1: on the world where `s1` runs, a second `Start` of `s1` is
rejected, even with the binary missing. -/
theorem C1_start_running_rejected_witness :
    Start linuxHost oneRunning "s1" "cfg2"
        { stat := some "no such file", write := none, openLog := none, spawn := .ok 7 } =
      (some (.alreadyRunning "s1"), oneRunning) :=
  C1_start_running_rejected linuxHost oneRunning "s1" "cfg2" _
    (startedRecord (initWorld "/data") "s1" 4242) (by decide) (by decide)

/-- A successful `Start` on an id that is not running: the result, spelled out. -/
theorem Start_ok (h : Host) (w : World) (serverID tomlContent : String) (pid : Nat)
    (hnot : isRunning w.pm serverID = false) :
    Start h w serverID tomlContent (okEnv pid) =
      (none,
        { pm := { w.pm with
            processes := setRecord w.pm.processes serverID (startedRecord w serverID pid) }
          procs := w.procs ++ [{ serverID := serverID, pid := pid, status := .live }]
          calls := w.calls ++ [SysCall.stat (w.pm.frpcPath h)]
            ++ [SysCall.writeFile (w.pm.confPath serverID) tomlContent]
            ++ [SysCall.openFile (w.pm.logPath serverID)]
            ++ [SysCall.startProcess (w.pm.frpcPath h) ["-c", w.pm.confPath serverID]] }) := by
  simp [Start, hnot, okEnv, startedRecord]

/-- C3: the exit-reaper step for a process instance `cmd` spawned for
`serverID` never touches the process table or `dataDir`; if the record of
`serverID` is absent or holds another handle, the registry is unchanged; if it
holds `cmd`, the only change is that this record gets `Running = false` (same
handle, same log file, other ids untouched).  In particular, after `Start`
(spawning `P1`), `Stop`, `Start` (spawning `P2`) for the same id, the late reaper
of `P1` leaves the record at `Running = true` with handle `P2`. -/
theorem C3_reaper_guarded (h : Host) (w : World) (serverID : String) (cmd : Cmd) :
    ((reaper w serverID cmd).procs = w.procs ∧
      (reaper w serverID cmd).pm.dataDir = w.pm.dataDir) ∧
    ((∀ p, getRecord w.pm.processes serverID = some p → p.Cmd.ptr ≠ cmd.ptr) →
      (reaper w serverID cmd).pm = w.pm) ∧
    (∀ p, getRecord w.pm.processes serverID = some p → p.Cmd.ptr = cmd.ptr →
      getRecord (reaper w serverID cmd).pm.processes serverID =
          some { p with Running := false } ∧
        ∀ id2, id2 ≠ serverID →
          getRecord (reaper w serverID cmd).pm.processes id2 =
            getRecord w.pm.processes id2) ∧
    (∀ (t1 t2 : String) (pid1 pid2 : Nat), isRunning w.pm serverID = false →
      let w1 := (Start h w serverID t1 (okEnv pid1)).2
      let w2 := (Stop w1 serverID none).2
      let w3 := (Start h w2 serverID t2 (okEnv pid2)).2
      let P1 : Cmd := { ptr := w.procs.length, pid := pid1 }
      let P2 : Cmd := { ptr := w.procs.length + 1, pid := pid2 }
      getRecord w1.pm.processes serverID = some (startedRecord w serverID pid1) ∧
      (Stop w1 serverID none).1 = none ∧
      (Start h w2 serverID t2 (okEnv pid2)).1 = none ∧
      getRecord w3.pm.processes serverID =
        some { ServerID := serverID, Cmd := P2, LogFile := w.pm.logPath serverID,
               Running := true } ∧
      getRecord (reaper w3 serverID P1).pm.processes serverID =
        some { ServerID := serverID, Cmd := P2, LogFile := w.pm.logPath serverID,
               Running := true }) := by
  refine ⟨?_, ?_, ?_, ?_⟩
  · unfold reaper
    cases hrec : getRecord w.pm.processes serverID with
    | none => simp
    | some p => by_cases hp : p.Cmd.ptr = cmd.ptr <;> simp [hp]
  · intro hne
    unfold reaper
    cases hrec : getRecord w.pm.processes serverID with
    | none => simp
    | some p => simp [hne p hrec]
  · intro p hrec hp
    unfold reaper
    simp only [hrec, hp, if_true]
    exact ⟨getRecord_setRecord_same _ _ _,
      fun id2 hne => getRecord_setRecord_other _ _ _ _ hne⟩
  · intro t1 t2 pid1 pid2 hnot
    have h1 := Start_ok h w serverID t1 pid1 hnot
    simp only [h1]
    have hg1 : getRecord (setRecord w.pm.processes serverID (startedRecord w serverID pid1))
        serverID = some (startedRecord w serverID pid1) := getRecord_setRecord_same _ _ _
    have hnot2 : isRunning (Stop
        { pm := { w.pm with
            processes := setRecord w.pm.processes serverID (startedRecord w serverID pid1) }
          procs := w.procs ++ [{ serverID := serverID, pid := pid1, status := .live }]
          calls := w.calls ++ [SysCall.stat (w.pm.frpcPath h)]
            ++ [SysCall.writeFile (w.pm.confPath serverID) t1]
            ++ [SysCall.openFile (w.pm.logPath serverID)]
            ++ [SysCall.startProcess (w.pm.frpcPath h) ["-c", w.pm.confPath serverID]] }
          serverID none).2.pm serverID = false := by
      simp [Stop, hg1, startedRecord, isRunning, getRecord_setRecord_same]
    have h3 := Start_ok h _ serverID t2 pid2 hnot2
    simp only [h3]
    simp [Stop, hg1, startedRecord, reaper, getRecord_setRecord_same,
      ProcessManager.logPath, killProc]

/-- The witness of C3: the scenario on a fresh manager, with `P1` of pid 100 and
`P2` of pid 200. -/
theorem C3_reaper_guarded_witness :
    getRecord (reaper (Start linuxHost (Stop (Start linuxHost (initWorld "/data") "s1" "a"
        (okEnv 100)).2 "s1" none).2 "s1" "b" (okEnv 200)).2 "s1"
        { ptr := 0, pid := 100 }).pm.processes "s1" =
      some { ServerID := "s1", Cmd := { ptr := 1, pid := 200 },
             LogFile := "/data/logs/s1.log", Running := true } :=
  ((C3_reaper_guarded linuxHost (initWorld "/data") "s1" { ptr := 0, pid := 100 }).2.2.2
    "a" "b" 100 200 (by decide)).2.2.2.2

/-- C5: for every world and every server id that is Absent (no record) or
Stopped (a record with `Running = false`), `Stop` returns the not-running error
and leaves the whole world as it was: the registry is unchanged and no kill call
is issued, whatever the kill would have answered. -/
theorem C5_stop_not_running (w : World) (serverID : String) (kill : Option String)
    (hnot : getRecord w.pm.processes serverID = none ∨
      ∃ info, getRecord w.pm.processes serverID = some info ∧ info.Running = false) :
    Stop w serverID kill = (some (.notRunning serverID), w) := by
  rcases hnot with hnone | ⟨info, hrec, hstop⟩
  · simp [Stop, hnone]
  · simp [Stop, hrec, hstop]

/-- The witness of C5: `Stop` of an id without a record, on the world where only
`s1` runs. -/
theorem C5_stop_not_running_witness :
    Stop oneRunning "s2" none = (some (.notRunning "s2"), oneRunning) :=
  C5_stop_not_running oneRunning "s2" none (Or.inl (by decide))

/-- C6: for every server id whose record has `Running = true`: if the kill
succeeds, `Stop` returns success, the record stays under the same key with the
same handle (and log file) and `Running = false`, the keys of the registry and
every other record are unchanged, and exactly one kill call, on the record's
handle, is issued; if the kill fails, `Stop` returns the kill error and the
registry and the process table are unchanged (the record stays
`Running = true`). -/
theorem C6_stop_running (w : World) (serverID : String) (info : ProcessInfo)
    (hrec : getRecord w.pm.processes serverID = some info) (hrun : info.Running = true) :
    ((Stop w serverID none).1 = none ∧
      getRecord (Stop w serverID none).2.pm.processes serverID =
        some { info with Running := false } ∧
      (∀ id2, id2 ≠ serverID →
        getRecord (Stop w serverID none).2.pm.processes id2 = getRecord w.pm.processes id2) ∧
      (Stop w serverID none).2.pm.processes.map Prod.fst = w.pm.processes.map Prod.fst ∧
      (Stop w serverID none).2.calls = w.calls ++ [SysCall.kill info.Cmd]) ∧
    (∀ e, (Stop w serverID (some e)).1 = some (.stopFailed e) ∧
      (Stop w serverID (some e)).2.pm = w.pm ∧
      (Stop w serverID (some e)).2.procs = w.procs ∧
      getRecord (Stop w serverID (some e)).2.pm.processes serverID = some info ∧
      (Stop w serverID (some e)).2.calls = w.calls ++ [SysCall.kill info.Cmd]) := by
  refine ⟨⟨?_, ?_, ?_, ?_, ?_⟩, ?_⟩
  · simp [Stop, hrec, hrun]
  · simp [Stop, hrec, hrun, getRecord_setRecord_same]
  · intro id2 hne
    simp [Stop, hrec, hrun, getRecord_setRecord_other _ _ _ _ hne]
  · simp [Stop, hrec, hrun, setRecord_keys _ _ info _ hrec]
  · simp [Stop, hrec, hrun]
  · intro e
    simp [Stop, hrec, hrun]

/-- The witness of C6: stopping `s1` on the world where it runs. -/
theorem C6_stop_running_witness :
    (Stop oneRunning "s1" none).1 = none ∧
      getRecord (Stop oneRunning "s1" none).2.pm.processes "s1" =
        some { startedRecord (initWorld "/data") "s1" 4242 with Running := false } :=
  have h := (C6_stop_running oneRunning "s1" (startedRecord (initWorld "/data") "s1" 4242)
    (by decide) (by decide)).1
  ⟨h.1, h.2.1⟩

/-! ### At most one live process per server id -/

theorem getRecord_mem (m : List (String × ProcessInfo)) (id : String) (info : ProcessInfo)
    (hrec : getRecord m id = some info) : (id, info) ∈ m := by
  induction m with
  | nil => simp [getRecord] at hrec
  | cons e rest ih =>
    obtain ⟨k, v⟩ := e
    by_cases hk : k = id
    · simp [getRecord, hk] at hrec
      simp [hk, hrec]
    · simp [getRecord, hk] at hrec
      exact List.mem_cons_of_mem _ (ih hrec)

/-- A process that is live after a kill was live before, is unchanged, and was
not the target of a successful kill. -/
theorem killProc_live (procs : List OsProc) (cmd : Cmd) (ok : Bool) (i : Nat) (p : OsProc)
    (hget : (killProc procs cmd ok)[i]? = some p) (hlive : p.status = .live) :
    procs[i]? = some p ∧ ¬ (ok = true ∧ cmd.ptr = i) := by
  unfold killProc at hget
  cases ok with
  | false => simpa using hget
  | true =>
    simp only [if_true, List.getElem?_modify] at hget
    cases hq : procs[i]? with
    | none => simp [hq] at hget
    | some q =>
      simp only [hq, Option.map_eq_map, Option.map_some', Option.some.injEq] at hget
      by_cases hi : cmd.ptr = i
      · simp only [hi, if_true] at hget
        by_cases hql : q.status = .live
        · simp only [hql, if_true] at hget
          rw [← hget] at hlive
          simp at hlive
        · simp only [hql, if_false] at hget
          rw [hget] at hql
          exact absurd hlive hql
      · simp only [hi, if_false] at hget
        simp [hget, hi]

/-- A process that is live after the loop of `StopAll` was live before, and no
running record whose kill succeeds holds it. -/
theorem stopAllLoop_live (kill : Cmd → Bool) (m : List (String × ProcessInfo)) :
    ∀ (procs : List OsProc) (calls : List SysCall) (i : Nat) (p : OsProc),
      (stopAllLoop kill m procs calls).2.1[i]? = some p → p.status = .live →
      procs[i]? = some p ∧
        ∀ e ∈ m, e.2.Running = true → kill e.2.Cmd = true → e.2.Cmd.ptr ≠ i := by
  induction m with
  | nil =>
    intro procs calls i p hget _
    simpa [stopAllLoop] using hget
  | cons e rest ih =>
    obtain ⟨id, info⟩ := e
    intro procs calls i p hget hlive
    by_cases hrun : info.Running = true
    · simp only [stopAllLoop, hrun, if_true] at hget
      obtain ⟨h1, h2⟩ := ih _ _ i p hget hlive
      obtain ⟨h3, h4⟩ := killProc_live _ _ _ _ _ h1 hlive
      refine ⟨h3, ?_⟩
      intro e he her hek
      rcases List.mem_cons.mp he with rfl | he
      · intro hi
        exact h4 ⟨hek, hi⟩
      · exact h2 e he her hek
    · simp only [stopAllLoop, hrun] at hget
      obtain ⟨h1, h2⟩ := ih _ _ i p hget hlive
      refine ⟨h1, ?_⟩
      intro e he her hek
      rcases List.mem_cons.mp he with rfl | he
      · exact absurd her hrun
      · exact h2 e he her hek

/-- The two shapes of a `Start`: it fails and leaves registry and process table
alone, or it succeeds on an id that was not running, stores the new record and
spawns one process. -/
theorem Start_cases (h : Host) (w : World) (serverID tomlContent : String) (env : StartEnv) :
    ((Start h w serverID tomlContent env).1 ≠ none ∧
      (Start h w serverID tomlContent env).2.pm = w.pm ∧
      (Start h w serverID tomlContent env).2.procs = w.procs) ∨
    (∃ pid, env.spawn = .ok pid ∧ isRunning w.pm serverID = false ∧
      (Start h w serverID tomlContent env).1 = none ∧
      (Start h w serverID tomlContent env).2.pm =
        { w.pm with
          processes := setRecord w.pm.processes serverID (startedRecord w serverID pid) } ∧
      (Start h w serverID tomlContent env).2.procs =
        w.procs ++ [{ serverID := serverID, pid := pid, status := .live }]) := by
  unfold Start
  by_cases hrun : isRunning w.pm serverID = true
  · simp [hrun]
  · cases hst : env.stat with
    | some e => simp [hrun]
    | none =>
      cases hwr : env.write with
      | some e => simp [hrun]
      | none =>
        cases hop : env.openLog with
        | some e => simp [hrun]
        | none =>
          cases hsp : env.spawn with
          | error e => simp [hrun]
          | ok pid => simp [hrun, startedRecord]

theorem Supervised_Start (h : Host) (w : World) (serverID tomlContent : String)
    (env : StartEnv) (hs : Supervised w) :
    Supervised (Start h w serverID tomlContent env).2 := by
  rcases Start_cases h w serverID tomlContent env with ⟨_, hpm, hprocs⟩ |
    ⟨pid, _, hrun, _, hpm, hprocs⟩
  · intro i p hget hlive
    rw [hprocs] at hget
    rw [hpm]
    exact hs i p hget hlive
  · intro i p hget hlive
    rw [hprocs] at hget
    rw [hpm]
    by_cases hi : i < w.procs.length
    · rw [List.getElem?_append_left hi] at hget
      obtain ⟨info, hrec, hptr, hr⟩ := hs i p hget hlive
      have hne : p.serverID ≠ serverID := by
        intro heq
        rw [heq] at hrec
        simp [isRunning, hrec, hr] at hrun
      exact ⟨info, by simp only; rw [getRecord_setRecord_other _ _ _ _ hne]; exact hrec,
        hptr, hr⟩
    · have hle : w.procs.length ≤ i := Nat.le_of_not_lt hi
      rw [List.getElem?_append_right hle] at hget
      have hi0 : i - w.procs.length = 0 := by
        by_contra hne
        obtain ⟨k, hk⟩ := Nat.exists_eq_succ_of_ne_zero hne
        simp [hk] at hget
      simp only [hi0, List.getElem?_cons_zero, Option.some.injEq] at hget
      subst hget
      refine ⟨_, getRecord_setRecord_same _ _ _, ?_, rfl⟩
      simp only [startedRecord]
      omega

theorem Supervised_Stop (w : World) (serverID : String) (kill : Option String)
    (hs : Supervised w) : Supervised (Stop w serverID kill).2 := by
  unfold Stop
  cases hrec : getRecord w.pm.processes serverID with
  | none => simpa using hs
  | some info =>
    by_cases hrun : info.Running = true
    · cases kill with
      | some e => simpa [hrun, Supervised] using hs
      | none =>
        simp only [hrun, Bool.not_true, Bool.false_eq_true, if_false]
        intro i p hget hlive
        simp only at hget ⊢
        obtain ⟨h1, h2⟩ := killProc_live _ _ _ _ _ hget hlive
        obtain ⟨info2, hrec2, hptr, hr⟩ := hs i p h1 hlive
        have hne : p.serverID ≠ serverID := by
          intro heq
          rw [heq, hrec] at hrec2
          cases hrec2
          exact h2 ⟨rfl, hptr⟩
        exact ⟨info2, by rw [getRecord_setRecord_other _ _ _ _ hne]; exact hrec2, hptr, hr⟩
    · simpa [hrun] using hs

theorem Supervised_reaper (w : World) (ptr : Nat) (q : OsProc) (hq : w.procs[ptr]? = some q)
    (hdead : q.status ≠ .live) (hs : Supervised w) :
    Supervised (reaper w q.serverID { ptr := ptr, pid := q.pid }) := by
  unfold reaper
  cases hrec : getRecord w.pm.processes q.serverID with
  | none => simpa [Supervised] using hs
  | some r =>
    by_cases hr : r.Cmd.ptr = ptr
    · simp only [hr, if_true]
      intro i p hget hlive
      simp only at hget ⊢
      obtain ⟨info, hrec2, hptr, hrun⟩ := hs i p hget hlive
      have hne : p.serverID ≠ q.serverID := by
        intro heq
        rw [heq, hrec] at hrec2
        cases hrec2
        rw [hr] at hptr
        subst hptr
        rw [hq] at hget
        cases hget
        exact hdead hlive
      exact ⟨info, by rw [getRecord_setRecord_other _ _ _ _ hne]; exact hrec2, hptr, hrun⟩
    · simpa [hr, Supervised] using hs

theorem Supervised_StopAll (w : World) (kill : Cmd → Bool)
    (heff : killsEffective w kill = true) (hs : Supervised w) :
    Supervised (StopAll w kill) := by
  intro i p hget hlive
  exfalso
  simp only [StopAll] at hget
  obtain ⟨h1, h2⟩ := stopAllLoop_live kill _ _ _ i p hget hlive
  obtain ⟨info, hrec, hptr, hrun⟩ := hs i p h1 hlive
  have hmem := getRecord_mem _ _ _ hrec
  have hk : kill info.Cmd = true := by
    have := (List.all_eq_true.mp heff) _ hmem
    simpa [hrun, isLive, hptr, h1, hlive] using this
  exact h2 _ hmem hrun hk hptr

theorem Supervised_step (h : Host) (w w1 : World) (a : Action)
    (hstep : step h w a = some w1)
    (heff : ∀ kill, a = .stopAll kill → killsEffective w kill = true)
    (hs : Supervised w) : Supervised w1 := by
  cases a with
  | start serverID tomlContent env =>
    simp only [step, Option.some.injEq] at hstep
    exact hstep ▸ Supervised_Start h w serverID tomlContent env hs
  | stop serverID kill =>
    simp only [step, Option.some.injEq] at hstep
    exact hstep ▸ Supervised_Stop w serverID kill hs
  | stopAll kill =>
    simp only [step, Option.some.injEq] at hstep
    exact hstep ▸ Supervised_StopAll w kill (heff kill rfl) hs
  | exit ptr =>
    simp only [step] at hstep
    cases hq : w.procs[ptr]? with
    | none => simp [hq] at hstep
    | some q =>
      by_cases hql : q.status = .live
      · simp only [hq, hql, if_true, Option.some.injEq] at hstep
        subst hstep
        intro i p hget hlive
        simp only [List.getElem?_set] at hget
        by_cases hi : ptr = i
        · simp only [hi, if_true] at hget
          by_cases hlen : i < w.procs.length
          · simp only [hlen, if_true, Option.some.injEq] at hget
            rw [← hget] at hlive
            simp at hlive
          · simp [hlen] at hget
        · simp only [hi, if_false] at hget
          exact hs i p hget hlive
      · simp [hq, hql] at hstep
  | reap ptr =>
    simp only [step] at hstep
    cases hq : w.procs[ptr]? with
    | none => simp [hq] at hstep
    | some q =>
      by_cases hql : q.status = .live
      · simp [hq, hql] at hstep
      · simp only [hq, hql, if_false, Option.some.injEq] at hstep
        exact hstep ▸ Supervised_reaper w ptr q hq hql hs

theorem Supervised_exec (h : Host) (acts : List Action) :
    ∀ (w w1 : World), exec h w acts = some w1 → stopAllEffective h w acts = true →
      Supervised w → Supervised w1 := by
  induction acts with
  | nil =>
    intro w w1 hex _ hs
    simp only [exec, Option.some.injEq] at hex
    exact hex ▸ hs
  | cons a rest ih =>
    intro w w1 hex heff hs
    simp only [exec] at hex
    cases hstep : step h w a with
    | none => simp [hstep] at hex
    | some w2 =>
      simp only [hstep] at hex
      simp only [stopAllEffective, hstep, Bool.and_eq_true] at heff
      refine ih w2 w1 hex heff.2 (Supervised_step h w w2 a hstep ?_ hs)
      intro kill hk
      subst hk
      exact heff.1

/-- A list in which any two positions holding an element that satisfies `P` are
the same position has at most one such element. -/
theorem filter_length_le_one {α : Type} (P : α → Bool) (l : List α)
    (huniq : ∀ (i j : Nat) (a b : α),
      l[i]? = some a → l[j]? = some b → P a = true → P b = true → i = j) :
    (l.filter P).length ≤ 1 := by
  induction l with
  | nil => simp
  | cons x rest ih =>
    have hrest : (rest.filter P).length ≤ 1 := by
      apply ih
      intro i j a b hi hj ha hb
      have := huniq (i + 1) (j + 1) a b (by simpa using hi) (by simpa using hj) ha hb
      omega
    by_cases hx : P x = true
    · have hnone : rest.filter P = [] := by
        rw [List.filter_eq_nil_iff]
        intro b hb hPb
        obtain ⟨j, hj⟩ := List.getElem?_of_mem hb
        have := huniq 0 (j + 1) x b (by simp) (by simpa using hj) hx hPb
        omega
      simp [List.filter_cons, hx, hnone]
    · simp only [List.filter_cons, hx]
      exact hrest

theorem Supervised_liveProcs (w : World) (hs : Supervised w) (serverID : String) :
    (liveProcs w serverID).length ≤ 1 := by
  unfold liveProcs
  apply filter_length_le_one
  intro i j a b hi hj ha hb
  simp only [decide_eq_true_eq] at ha hb
  obtain ⟨ia, hra, hpa, _⟩ := hs i a hi ha.2
  obtain ⟨ib, hrb, hpb, _⟩ := hs j b hj hb.2
  rw [ha.1] at hra
  rw [hb.1, hra] at hrb
  cases hrb
  omega

/-- The counterexample to C2: from a fresh manager, `Start s1`, a `StopAll` whose
kill fails (the process lives on, the record is marked stopped all the same),
`Start s1` again: two processes spawned for `s1` are live. -/
theorem C2_counterexample :
    (exec linuxHost (initWorld "/data") lingeringRun).map (fun w => liveProcs w "s1") =
      some [{ serverID := "s1", pid := 100, status := .live },
            { serverID := "s1", pid := 200, status := .live }] := by
  decide

/-- C2, amended: in every state reachable from the empty registry by any
sequence of Start, Stop, StopAll, process-exit and exit-reaper steps in which a
kill issued by Stop may succeed or fail and every kill issued by StopAll on a
still-live process succeeds, each server id has at most one live process. -/
theorem C2_at_most_one_live (h : Host) (dataDir : String) (acts : List Action) (w : World)
    (hrun : exec h (initWorld dataDir) acts = some w)
    (heff : stopAllEffective h (initWorld dataDir) acts = true) (serverID : String) :
    (liveProcs w serverID).length ≤ 1 := by
  apply Supervised_liveProcs
  refine Supervised_exec h acts _ w hrun heff ?_
  intro i p hget
  simp [initWorld] at hget

/-- The witness of C2: at the end of `cleanRun`, `s1` has at most one live process. -/
theorem C2_at_most_one_live_witness :
    exec linuxHost (initWorld "/data") cleanRun = some cleanRunEnd ∧
      liveProcs cleanRunEnd "s1" = [{ serverID := "s1", pid := 400, status := .live }] ∧
      (liveProcs cleanRunEnd "s1").length ≤ 1 :=
  ⟨by decide, by decide,
    C2_at_most_one_live linuxHost "/data" cleanRun cleanRunEnd (by decide) (by decide) "s1"⟩

/-! ### A successful start -/

/-- A running record is not touched by a step that is neither a `Stop` of its id,
nor a `StopAll`, nor the reaper of its handle. -/
theorem step_leaves (h : Host) (w w1 : World) (a : Action) (serverID : String)
    (info : ProcessInfo) (hrec : getRecord w.pm.processes serverID = some info)
    (hrun : info.Running = true) (ha : a.leaves serverID info.Cmd.ptr = true)
    (hstep : step h w a = some w1) :
    getRecord w1.pm.processes serverID = some info := by
  cases a with
  | start id tomlContent env =>
    simp only [step, Option.some.injEq] at hstep
    subst hstep
    rcases Start_cases h w id tomlContent env with ⟨_, hpm, _⟩ | ⟨pid, _, hnot, _, hpm, _⟩
    · rw [hpm]; exact hrec
    · rw [hpm]
      have hne : serverID ≠ id := by
        intro heq
        rw [← heq] at hnot
        simp [isRunning, hrec, hrun] at hnot
      simp only
      rw [getRecord_setRecord_other _ _ _ _ hne]
      exact hrec
  | stop id kill =>
    simp only [Action.leaves, decide_eq_true_eq] at ha
    simp only [step, Option.some.injEq] at hstep
    subst hstep
    unfold Stop
    cases hr2 : getRecord w.pm.processes id with
    | none => simpa using hrec
    | some info2 =>
      by_cases hrun2 : info2.Running = true
      · cases kill with
        | some e => simpa [hrun2] using hrec
        | none =>
          simp only [hrun2, Bool.not_true, Bool.false_eq_true, if_false]
          rw [getRecord_setRecord_other _ _ _ _ (Ne.symm ha)]
          exact hrec
      · simpa [hrun2] using hrec
  | stopAll kill => simp [Action.leaves] at ha
  | exit ptr =>
    simp only [step] at hstep
    cases hq : w.procs[ptr]? with
    | none => simp [hq] at hstep
    | some q =>
      by_cases hql : q.status = .live
      · simp only [hq, hql, if_true, Option.some.injEq] at hstep
        subst hstep
        exact hrec
      · simp [hq, hql] at hstep
  | reap ptr =>
    simp only [Action.leaves, decide_eq_true_eq] at ha
    simp only [step] at hstep
    cases hq : w.procs[ptr]? with
    | none => simp [hq] at hstep
    | some q =>
      by_cases hql : q.status = .live
      · simp [hq, hql] at hstep
      · simp only [hq, hql, if_false, Option.some.injEq] at hstep
        subst hstep
        unfold reaper
        cases hr2 : getRecord w.pm.processes q.serverID with
        | none => simpa using hrec
        | some r =>
          by_cases hr : r.Cmd.ptr = ptr
          · simp only [hr, if_true]
            have hne : serverID ≠ q.serverID := by
              intro heq
              rw [heq, hr2] at hrec
              cases hrec
              exact ha hr.symm
            rw [getRecord_setRecord_other _ _ _ _ hne]
            exact hrec
          · simpa [hr] using hrec

theorem exec_leaves (h : Host) (serverID : String) (info : ProcessInfo)
    (hrun : info.Running = true) (acts : List Action) :
    ∀ (w w1 : World), getRecord w.pm.processes serverID = some info →
      (∀ a ∈ acts, a.leaves serverID info.Cmd.ptr = true) →
      exec h w acts = some w1 → getRecord w1.pm.processes serverID = some info := by
  induction acts with
  | nil =>
    intro w w1 hrec _ hex
    simp only [exec, Option.some.injEq] at hex
    exact hex ▸ hrec
  | cons a rest ih =>
    intro w w1 hrec hall hex
    simp only [exec] at hex
    cases hstep : step h w a with
    | none => simp [hstep] at hex
    | some w2 =>
      simp only [hstep] at hex
      exact ih w2 w1
        (step_leaves h w w2 a serverID info hrec hrun (hall a (List.mem_cons_self _ _)) hstep)
        (fun b hb => hall b (List.mem_cons_of_mem _ hb)) hex

/-- The counterexample to C4: `s1` is started successfully on a fresh manager and
`Status` reports it running; then, with no `Stop` of `s1` and no reaper step, a
`StopAll` makes `Status` report `(false, 4242)`. -/
theorem C4_counterexample :
    (Start linuxHost (initWorld "/data") "s1" "cfg" (okEnv 4242)).1 = none ∧
      Status oneRunning "s1" = (true, 4242) ∧
      (exec linuxHost oneRunning [.stopAll (fun _ => true)]).map (fun w => Status w "s1") =
        some (false, 4242) := by
  decide

/-- C4, amended: for every server id that is Absent or Stopped, when the stat of
the binary, the config write, the log-file open and the spawn all succeed,
`Start` returns success and afterwards `Status` of the id is `(true, pid)` with
`pid` the non-zero pid of the newly spawned process, the record holds the fresh
handle, every other id's record is unchanged, and this status holds along every
run that has no `Stop` of this id, no `StopAll`, and no reaper step of that
process. -/
theorem C4_start_success (h : Host) (w : World) (serverID tomlContent : String)
    (env : StartEnv) (pid : Nat)
    (hnot : getRecord w.pm.processes serverID = none ∨
      ∃ info, getRecord w.pm.processes serverID = some info ∧ info.Running = false)
    (hstat : env.stat = none) (hwrite : env.write = none) (hopen : env.openLog = none)
    (hspawn : env.spawn = .ok pid) (hpid : pid ≠ 0) :
    (Start h w serverID tomlContent env).1 = none ∧
    Status (Start h w serverID tomlContent env).2 serverID = (true, pid) ∧
    (Status (Start h w serverID tomlContent env).2 serverID).2 ≠ 0 ∧
    getRecord (Start h w serverID tomlContent env).2.pm.processes serverID =
      some (startedRecord w serverID pid) ∧
    (∀ id2, id2 ≠ serverID →
      getRecord (Start h w serverID tomlContent env).2.pm.processes id2 =
        getRecord w.pm.processes id2) ∧
    (∀ acts w2, (∀ a ∈ acts, a.leaves serverID w.procs.length = true) →
      exec h (Start h w serverID tomlContent env).2 acts = some w2 →
      Status w2 serverID = (true, pid)) := by
  have henv : env = okEnv pid := by
    cases env
    simp only [okEnv] at *
    simp [hstat, hwrite, hopen, hspawn]
  have hnr : isRunning w.pm serverID = false := by
    rcases hnot with hnone | ⟨info, hrec, hstop⟩
    · simp [isRunning, hnone]
    · simp [isRunning, hrec, hstop]
  subst henv
  rw [Start_ok h w serverID tomlContent pid hnr]
  have hget : getRecord (setRecord w.pm.processes serverID (startedRecord w serverID pid))
      serverID = some (startedRecord w serverID pid) := getRecord_setRecord_same _ _ _
  refine ⟨rfl, ?_, ?_, hget, ?_, ?_⟩
  · simp only [Status, hget]
    rfl
  · simp only [Status, hget]
    exact hpid
  · intro id2 hne
    exact getRecord_setRecord_other _ _ _ _ hne
  · intro acts w2 hall hex
    have := exec_leaves h serverID (startedRecord w serverID pid) rfl acts _ w2 hget hall hex
    simp [Status, this, startedRecord]

/-- The witness of C4: `s1` started on a fresh manager keeps its status while
`s2` is started and stopped and a second `Start` of `s1` is rejected. -/
theorem C4_start_success_witness :
    (exec linuxHost oneRunning
        [.start "s2" "cfg" (okEnv 7), .stop "s2" none, .start "s1" "cfg" (okEnv 8)]).map
      (fun w => Status w "s1") = some (true, 4242) := by
  have hex : ∃ w2, exec linuxHost oneRunning
      [.start "s2" "cfg" (okEnv 7), .stop "s2" none, .start "s1" "cfg" (okEnv 8)] = some w2 :=
    ⟨_, rfl⟩
  obtain ⟨w2, hw2⟩ := hex
  have hkeep := (C4_start_success linuxHost (initWorld "/data") "s1" "cfg" (okEnv 4242) 4242
    (Or.inl (by decide)) rfl rfl rfl rfl (by decide)).2.2.2.2.2 _ w2 (by decide) hw2
  rw [hw2]
  simpa using hkeep

/-! ## Theorems: GetLogs -/

/-- For a positive `n` smaller than the number of newline-separated pieces of
the log, `GetLogs` returns the last `n` pieces joined by newlines. -/
theorem GetLogs_tail (pm : ProcessManager) (fs : String → ReadResult) (serverID content : String)
    (n : Nat) (hread : fs (pm.logPath serverID) = .ok content) (hpos : 0 < n)
    (hmore : n < (splitNewline content.data).length) :
    GetLogs pm fs serverID n =
      (String.mk (joinNewline
        ((splitNewline content.data).drop ((splitNewline content.data).length - n))), none) := by
  have h1 : (n : Int) > 0 := by exact_mod_cast hpos
  have h2 : ((splitNewline content.data).length : Int) > (n : Int) := by exact_mod_cast hmore
  simp [GetLogs, hread, h1, h2]

/-- C7, the code at a newline-terminated log: the log has exactly the ten lines
`l1` to `l10`, and `GetLogs` with `n = 3` returns `l9\nl10\n`, whose lines are
only `l9` and `l10`: the empty piece after the final newline is counted as one of
the three. -/
theorem C7_newline_terminated_log_loses_a_line :
    textLines tenLineLog = ["l1", "l2", "l3", "l4", "l5", "l6", "l7", "l8", "l9", "l10"] ∧
      GetLogs (NewProcessManager "/data") (logFs tenLineLog) "s1" 3 = ("l9\nl10\n", none) ∧
      textLines (GetLogs (NewProcessManager "/data") (logFs tenLineLog) "s1" 3).1 =
        ["l9", "l10"] := by
  decide

/-! ## Theorems: version.go -/

theorem writeBinary_accepts (env : DstEnv) (body : Bytes) (dst : Option Bytes)
    (hacc : env.accepts body.length) :
    writeBinary env body none dst = (none, some body) := by
  obtain ⟨hopen, hwrite⟩ := hacc
  unfold writeBinary ioCopy
  cases hw : env.writeFail with
  | none => simp [hopen]
  | some kerr =>
    obtain ⟨k, err⟩ := kerr
    have := hwrite k err hw
    simp [hopen, Nat.not_lt.mpr this]

/-- The loop over a zip archive skips the entries before the first match and
never looks past it. -/
theorem zipLoop_first (h : Host) (env : DstEnv) (pre post : List ZipFile) (f : ZipFile)
    (dst : Option Bytes) (hpre : ∀ g ∈ pre, zipMatches h g = false)
    (hf : zipMatches h f = true) :
    zipLoop h env (pre ++ f :: post) dst = zipLoop h env [f] dst := by
  induction pre with
  | nil =>
    simp only [zipMatches, Bool.and_eq_true, decide_eq_true_eq, Bool.not_eq_true'] at hf
    simp [zipLoop, hf]
  | cons g rest ih =>
    have hg := hpre g (List.mem_cons_self _ _)
    have hg2 : ¬ (h.base g.Name = frpcBinaryName h ∧ g.IsDir = false) := by
      intro hc
      simp [zipMatches, hc.1, hc.2] at hg
    simp only [List.cons_append, zipLoop, hg2, if_false]
    exact ih (fun x hx => hpre x (List.mem_cons_of_mem _ hx))

/-- The loop over a tar stream skips the entries before the first match and
never reads past it. -/
theorem tarLoop_first (h : Host) (env : DstEnv) (nextErr nextErr2 : Option String)
    (pre post : List TarEntry) (e : TarEntry) (dst : Option Bytes)
    (hpre : ∀ g ∈ pre, tarMatches h g = false) (he : tarMatches h e = true) :
    tarLoop h env nextErr (pre ++ e :: post) dst = tarLoop h env nextErr2 [e] dst := by
  induction pre with
  | nil =>
    simp only [tarMatches, Bool.and_eq_true, decide_eq_true_eq] at he
    simp [tarLoop, he]
  | cons g rest ih =>
    have hg := hpre g (List.mem_cons_self _ _)
    have hg2 : ¬ (h.base g.Name = frpcBinaryName h ∧ g.Typeflag = tarTypeReg) := by
      intro hc
      simp [tarMatches, hc.1, hc.2] at hg
    simp only [List.cons_append, tarLoop, hg2, if_false]
    exact ih (fun x hx => hpre x (List.mem_cons_of_mem _ hx))

theorem zipLoop_none (h : Host) (env : DstEnv) (files : List ZipFile) (dst : Option Bytes)
    (hno : ∀ g ∈ files, zipMatches h g = false) :
    zipLoop h env files dst = (some .notFoundInZip, dst) := by
  induction files with
  | nil => rfl
  | cons g rest ih =>
    have hg := hno g (List.mem_cons_self _ _)
    have hg2 : ¬ (h.base g.Name = frpcBinaryName h ∧ g.IsDir = false) := by
      intro hc
      simp [zipMatches, hc.1, hc.2] at hg
    simp only [zipLoop, hg2, if_false]
    exact ih (fun x hx => hno x (List.mem_cons_of_mem _ hx))

theorem tarLoop_none (h : Host) (env : DstEnv) (entries : List TarEntry) (dst : Option Bytes)
    (hno : ∀ g ∈ entries, tarMatches h g = false) :
    tarLoop h env none entries dst = (some .notFoundInTarGz, dst) := by
  induction entries with
  | nil => rfl
  | cons g rest ih =>
    have hg := hno g (List.mem_cons_self _ _)
    have hg2 : ¬ (h.base g.Name = frpcBinaryName h ∧ g.Typeflag = tarTypeReg) := by
      intro hc
      simp [tarMatches, hc.1, hc.2] at hg
    simp only [tarLoop, hg2, if_false]
    exact ih (fun x hx => hno x (List.mem_cons_of_mem _ hx))

/-- A list with a first element satisfying `P` splits around it. -/
theorem find_split {α : Type} (P : α → Bool) (l : List α) (x : α)
    (hfind : l.find? P = some x) :
    ∃ pre post, l = pre ++ x :: post ∧ (∀ g ∈ pre, P g = false) ∧ P x = true := by
  induction l with
  | nil => simp at hfind
  | cons y rest ih =>
    by_cases hy : P y = true
    · simp only [List.find?_cons, hy, Option.some.injEq] at hfind
      subst hfind
      exact ⟨[], rest, rfl, by simp, hy⟩
    · simp only [List.find?_cons, hy] at hfind
      obtain ⟨pre, post, hl, hpre, hx⟩ := ih hfind
      refine ⟨y :: pre, post, by simp [hl], ?_, hx⟩
      intro g hg
      rcases List.mem_cons.mp hg with rfl | hg
      · simpa using hy
      · exact hpre g hg

theorem zipLoop_find (h : Host) (env : DstEnv) (files : List ZipFile) (f : ZipFile)
    (dst : Option Bytes) (hfind : files.find? (zipMatches h) = some f)
    (hopen : f.openErr = none) (hread : f.readErr = none) (hacc : env.accepts f.body.length) :
    zipLoop h env files dst = (none, some f.body) := by
  obtain ⟨pre, post, hl, hpre, hf⟩ := find_split _ _ _ hfind
  rw [hl, zipLoop_first h env pre post f dst hpre hf]
  simp only [zipMatches, Bool.and_eq_true, decide_eq_true_eq, Bool.not_eq_true'] at hf
  simp only [zipLoop, hf, and_self, if_true, hopen, hread]
  exact writeBinary_accepts env f.body dst hacc

theorem tarLoop_find (h : Host) (env : DstEnv) (nextErr : Option String)
    (entries : List TarEntry) (e : TarEntry) (dst : Option Bytes)
    (hfind : entries.find? (tarMatches h) = some e) (hread : e.readErr = none)
    (hacc : env.accepts e.body.length) :
    tarLoop h env nextErr entries dst = (none, some e.body) := by
  obtain ⟨pre, post, hl, hpre, he⟩ := find_split _ _ _ hfind
  rw [hl, tarLoop_first h env nextErr nextErr pre post e dst hpre he]
  simp only [tarMatches, Bool.and_eq_true, decide_eq_true_eq] at he
  simp only [tarLoop, he, and_self, if_true, hread]
  exact writeBinary_accepts env e.body dst hacc

/-- The counterexample to C8: a symbolic link named `frpc` before a regular
file named `frpc`.  From the zip archive the content of the link is installed,
though the link is not a regular file and the first regular entry of that name
is the second one; from the tar.gz archive the content of the second entry is
installed, though the first entry of that name that is not a directory is the
link.  Whichever of "regular" and "not a directory" the criterion means, one of
the two formats does not follow it. -/
theorem C8_counterexample :
    symlinkZipFiles.find? (zipRegularNamed linuxHost) =
        some { Name := "frp_0.53.0_linux_amd64/frpc", IsDir := false, IsRegular := true,
               openErr := none, body := [1, 2, 3], readErr := none } ∧
      extractFrpc linuxHost okDst okDst symlinkZip none = (none, some [46, 46, 47, 120]) ∧
      symlinkTarEntries.find? (tarNonDirNamed linuxHost) =
        some { Name := "links/frpc", Typeflag := tarTypeSymlink, body := [],
               readErr := none } ∧
      extractFrpc linuxHost okDst okDst symlinkTarGz none = (none, some [1, 2, 3]) := by
  decide

/-- C8, amended: for every archive that opens as a zip, if the first entry in
archive order that is not a directory (a regular file or not) and whose base
name is exactly the binary name can be opened and read and the install path can
be written, `extractFromZip` and `extractFrpc` succeed and the install path
holds exactly that entry's content; for every archive that opens as a tar.gz,
the same holds of its first entry of that base name whose type is `tar.TypeReg`
(for `extractFrpc`, once the zip attempt has failed).  Entries before the first
match and all entries after it, later duplicates included, never affect the
outcome: the loops behave as on the first match alone. -/
theorem C8_first_match_installed (h : Host) (envZip envTar : DstEnv) (a : Archive)
    (dst : Option Bytes) :
    (∀ files f, a.zip = .ok files → files.find? (zipMatches h) = some f →
      f.openErr = none → f.readErr = none → envZip.accepts f.body.length →
      extractFromZip h envZip a dst = (none, some f.body) ∧
        extractFrpc h envZip envTar a dst = (none, some f.body)) ∧
    (∀ stream e, a.openErr = none → a.gzip = .ok stream →
      stream.entries.find? (tarMatches h) = some e →
      e.readErr = none → envTar.accepts e.body.length →
      extractFromTarGz h envTar a dst = (none, some e.body) ∧
        ((extractFromZip h envZip a dst).1 ≠ none →
          extractFrpc h envZip envTar a dst = (none, some e.body))) ∧
    (∀ pre post f, (∀ g ∈ pre, zipMatches h g = false) → zipMatches h f = true →
      zipLoop h envZip (pre ++ f :: post) dst = zipLoop h envZip [f] dst) ∧
    (∀ nextErr pre post e, (∀ g ∈ pre, tarMatches h g = false) → tarMatches h e = true →
      tarLoop h envTar nextErr (pre ++ e :: post) dst = tarLoop h envTar none [e] dst) := by
  refine ⟨?_, ?_, ?_, ?_⟩
  · intro files f hzip hfind hopen hread hacc
    have hz : extractFromZip h envZip a dst = (none, some f.body) := by
      simp only [extractFromZip, hzip]
      exact zipLoop_find h envZip files f dst hfind hopen hread hacc
    exact ⟨hz, by simp [extractFrpc, hz]⟩
  · intro stream e hop hgz hfind hread hacc
    have ht : ∀ d, extractFromTarGz h envTar a d = (none, some e.body) := by
      intro d
      simp only [extractFromTarGz, hop, hgz]
      exact tarLoop_find h envTar stream.nextErr stream.entries e d hfind hread hacc
    refine ⟨ht dst, ?_⟩
    intro hfail
    unfold extractFrpc
    cases hz : extractFromZip h envZip a dst with
    | mk err dst1 =>
      cases err with
      | none => simp [hz] at hfail
      | some e1 => simp [ht dst1]
  · intro pre post f hpre hf
    exact zipLoop_first h envZip pre post f dst hpre hf
  · intro nextErr pre post e hpre he
    exact tarLoop_first h envTar nextErr none pre post e dst hpre he

/-- The witness of C8: from a zip that holds `frpc-old`, then `frpc` at a nested
path, then a second `frpc`, the content of the nested `frpc` is installed over
an older binary; from a tar.gz that holds a symbolic link named `frpc` and then
a regular `frpc`, the content of the regular one is installed. -/
theorem C8_first_match_installed_witness :
    extractFrpc linuxHost okDst okDst nestedZip (some [0, 0, 0, 0]) = (none, some [1, 2, 3]) ∧
      extractFrpc linuxHost okDst okDst symlinkTarGz (some [0, 0, 0, 0]) =
        (none, some [1, 2, 3]) :=
  ⟨((C8_first_match_installed linuxHost okDst okDst nestedZip (some [0, 0, 0, 0])).1
      _ { Name := "frp_0.53.0_linux_amd64/frpc", IsDir := false, IsRegular := true,
          openErr := none, body := [1, 2, 3], readErr := none }
      rfl (by decide) rfl rfl ⟨rfl, by intro k err hk; cases hk⟩).2,
    ((C8_first_match_installed linuxHost okDst okDst symlinkTarGz (some [0, 0, 0, 0])).2.1
      { entries := symlinkTarEntries, nextErr := none }
      { Name := "frp_0.53.0_linux_amd64/frpc", Typeflag := tarTypeReg, body := [1, 2, 3],
        readErr := none }
      rfl rfl (by decide) rfl ⟨rfl, by intro k err hk; cases hk⟩).2 (by decide)⟩

/-- The counterexample to C9: a file that opens as a zip, holds no entry named
`frpc`, and is not a gzip stream.  `extractFromZip` fails with its not-found
error, but `extractFrpc` returns the unsupported-format error. -/
theorem C9_counterexample :
    (extractFromZip linuxHost okDst zipWithoutFrpc none).1 = some .notFoundInZip ∧
      (extractFrpc linuxHost okDst okDst zipWithoutFrpc none).1 = some .unsupportedFormat ∧
      (extractFrpc linuxHost okDst okDst zipWithoutFrpc none).1 ≠ some .notFoundInZip ∧
      (extractFrpc linuxHost okDst okDst zipWithoutFrpc none).1 ≠ some .notFoundInTarGz := by
  decide

/-- C9, amended: for every archive that opens as a zip and holds no matching
entry, `extractFromZip` fails with the not-found error of the zip format and
leaves the install path alone; for every archive that opens as a tar.gz, whose
headers all read, and that holds no matching entry, `extractFromTarGz` fails
with the not-found error of the tar.gz format and leaves the install path
alone; and whenever both attempts fail, for whatever reason, `extractFrpc` fails
with the unsupported-format error, the only error it returns. -/
theorem C9_no_match (h : Host) (envZip envTar : DstEnv) (a : Archive) (dst : Option Bytes) :
    (∀ files, a.zip = .ok files → (∀ g ∈ files, zipMatches h g = false) →
      extractFromZip h envZip a dst = (some .notFoundInZip, dst)) ∧
    (∀ stream, a.openErr = none → a.gzip = .ok stream → stream.nextErr = none →
      (∀ g ∈ stream.entries, tarMatches h g = false) →
      extractFromTarGz h envTar a dst = (some .notFoundInTarGz, dst)) ∧
    ((extractFromZip h envZip a dst).1 ≠ none →
      (extractFromTarGz h envTar a (extractFromZip h envZip a dst).2).1 ≠ none →
      (extractFrpc h envZip envTar a dst).1 = some .unsupportedFormat) ∧
    (∀ err, (extractFrpc h envZip envTar a dst).1 = some err → err = .unsupportedFormat) := by
  refine ⟨?_, ?_, ?_, ?_⟩
  · intro files hzip hno
    simp only [extractFromZip, hzip]
    exact zipLoop_none h envZip files dst hno
  · intro stream hop hgz hnext hno
    simp only [extractFromTarGz, hop, hgz, hnext]
    exact tarLoop_none h envTar stream.entries dst hno
  · intro hz ht
    unfold extractFrpc
    cases hzr : extractFromZip h envZip a dst with
    | mk err dst1 =>
      cases err with
      | none => simp [hzr] at hz
      | some e1 =>
        simp only [hzr] at ht
        cases htr : extractFromTarGz h envTar a dst1 with
        | mk err2 dst2 =>
          cases err2 with
          | none => simp [htr] at ht
          | some e2 => simp [htr]
  · intro err herr
    unfold extractFrpc at herr
    cases hzr : extractFromZip h envZip a dst with
    | mk err1 dst1 =>
      cases err1 with
      | none => simp [hzr] at herr
      | some e1 =>
        simp only [hzr] at herr
        cases htr : extractFromTarGz h envTar a dst1 with
        | mk err2 dst2 =>
          cases err2 with
          | none => simp [htr] at herr
          | some e2 =>
            simp only [htr, Option.some.injEq] at herr
            exact herr.symm

/-- The witness of C9: the zip without `frpc`. -/
theorem C9_no_match_witness :
    extractFromZip linuxHost okDst zipWithoutFrpc (some [0]) = (some .notFoundInZip, some [0]) ∧
      (extractFrpc linuxHost okDst okDst zipWithoutFrpc (some [0])).1 =
        some .unsupportedFormat :=
  have h := C9_no_match linuxHost okDst okDst zipWithoutFrpc (some [0])
  ⟨h.1 _ rfl (by decide), h.2.2.1 (by decide) (by decide)⟩

/-- The loop yields the URL of the first asset named `pattern`, and the empty
string when there is none. -/
theorem findDownloadURL_find (pattern : String) (assets : List GithubAsset) :
    findDownloadURL pattern assets =
      match assets.find? (fun asset => asset.Name = pattern) with
      | some asset => asset.BrowserDownloadURL
      | none => "" := by
  induction assets with
  | nil => rfl
  | cons asset rest ih =>
    by_cases hname : asset.Name = pattern
    · simp [findDownloadURL, hname]
    · simp [findDownloadURL, hname, ih]

/-- The counterexample to C10: the only asset has exactly the expected name, yet
the selection fails with the asset-not-found error, because its download URL is
empty. -/
theorem C10_counterexample :
    (assetPattern linuxHost releaseWithoutURL.TagName).1 = "frp_0.53.0_linux_amd64.tar.gz" ∧
      releaseWithoutURL.Assets.find?
          (fun asset => asset.Name = (assetPattern linuxHost releaseWithoutURL.TagName).1) =
        some { Name := "frp_0.53.0_linux_amd64.tar.gz", BrowserDownloadURL := "" } ∧
      selectAsset linuxHost releaseWithoutURL =
        .error (.noMatchingAsset "linux" "amd64" "frp_0.53.0_linux_amd64.tar.gz") := by
  refine ⟨by decide, by decide, ?_⟩
  rfl

/-- C10, amended: for every release descriptor, asset selection succeeds with
(the download URL of) the first asset in list order whose name is exactly the
expected file name when that asset's download URL is not empty, and fails with
the asset-not-found error (naming os, arch and the expected file name) if no
asset has exactly that name or if the first such asset has an empty download
URL; with the assets `frp_0.53.0_linux_amd64.tar.gz` and
`frp_0.53.0_windows_amd64.zip`, version `v0.53.0` and os `linux`, arch `amd64`
selects the first asset and arch `arm64` fails. -/
theorem C10_select_asset (h : Host) (release : GithubRelease) :
    (∀ asset,
      release.Assets.find? (fun x => x.Name = (assetPattern h release.TagName).1) = some asset →
      asset.BrowserDownloadURL ≠ "" →
      selectAsset h release = .ok asset.BrowserDownloadURL) ∧
    (∀ asset,
      release.Assets.find? (fun x => x.Name = (assetPattern h release.TagName).1) = some asset →
      asset.BrowserDownloadURL = "" →
      selectAsset h release =
        .error (.noMatchingAsset h.goos h.goarch (assetPattern h release.TagName).1)) ∧
    ((∀ x ∈ release.Assets, x.Name ≠ (assetPattern h release.TagName).1) →
      selectAsset h release =
        .error (.noMatchingAsset h.goos h.goarch (assetPattern h release.TagName).1)) ∧
    selectAsset linuxHost exampleRelease =
      .ok "https://example.org/frp_0.53.0_linux_amd64.tar.gz" ∧
    selectAsset linuxArm64 exampleRelease =
      .error (.noMatchingAsset "linux" "arm64" "frp_0.53.0_linux_arm64.tar.gz") := by
  refine ⟨?_, ?_, ?_, rfl, rfl⟩
  · intro asset hfind hurl
    simp [selectAsset, findDownloadURL_find, hfind, hurl]
  · intro asset hfind hurl
    simp [selectAsset, findDownloadURL_find, hfind, hurl]
  · intro hno
    have hfind : release.Assets.find? (fun x => x.Name = (assetPattern h release.TagName).1) =
        none := by
      rw [List.find?_eq_none]
      intro x hx
      simpa using hno x hx
    simp [selectAsset, findDownloadURL_find, hfind]

/-- The witness of C10: the example release on a Linux amd64 host. -/
theorem C10_select_asset_witness :
    selectAsset linuxHost exampleRelease =
      .ok "https://example.org/frp_0.53.0_linux_amd64.tar.gz" :=
  (C10_select_asset linuxHost exampleRelease).1
    { Name := "frp_0.53.0_linux_amd64.tar.gz",
      BrowserDownloadURL := "https://example.org/frp_0.53.0_linux_amd64.tar.gz" }
    (by decide) (by decide)

/-! ## Theorems: asset pattern, bulk stop, log reading, status -/

/-- C11: for every version string, os name and arch name, the expected asset
file name is `frp_` ++ v ++ `_` ++ os ++ `_` ++ arch ++ `.` ++ ext, where v is
the version without its leading `v` (unchanged if it has none) and ext is `zip`
exactly when the os is `windows` and `tar.gz` otherwise; the returned `isZip`
is true exactly when the os is `windows`. -/
theorem C11_asset_pattern (base : String → String) (version os arch : String) :
    (assetPattern { goos := os, goarch := arch, base := base } version).1 =
        "frp_" ++ withoutLeadingV version ++ "_" ++ os ++ "_" ++ arch ++ "." ++
          (if os = "windows" then "zip" else "tar.gz") ∧
      ((assetPattern { goos := os, goarch := arch, base := base } version).2 = true ↔
        os = "windows") ∧
      (version.data.head? ≠ some 'v' → withoutLeadingV version = version) ∧
      (∀ rest : List Char, withoutLeadingV (String.mk ('v' :: rest)) = String.mk rest) := by
  have hv : trimLeadingV version = withoutLeadingV version := by
    unfold trimLeadingV withoutLeadingV
    cases hd : version.data with
    | nil => simp
    | cons c cs =>
      by_cases hc : c = 'v'
      · subst hc
        simp
      · have : ¬ (some c = some 'v') := by simpa using hc
        simp only [List.head?_cons, this, if_false]
        split
        · rename_i heq
          simp only [List.cons.injEq] at heq
          exact absurd heq.1 hc
        · rfl
  refine ⟨?_, ?_, ?_, ?_⟩
  · by_cases hw : os = "windows"
    · simp only [assetPattern, hw, if_true, hv, String.append_assoc]
      rfl
    · simp only [assetPattern, hw, if_false, hv, String.append_assoc]
      rfl
  · by_cases hw : os = "windows"
    · simp [assetPattern, hw]
    · simp [assetPattern, hw]
  · intro hno
    simp [withoutLeadingV, hno]
  · intro rest
    simp [withoutLeadingV]

/-- The loop of `StopAll`, spelled out: every record gets `Running = false`,
and one kill call per running record is issued, in the order of the loop. -/
theorem stopAllLoop_spec (kill : Cmd → Bool) (m : List (String × ProcessInfo)) :
    ∀ (procs : List OsProc) (calls : List SysCall),
      (stopAllLoop kill m procs calls).1 =
          m.map (fun e => (e.1, { e.2 with Running := false })) ∧
        (stopAllLoop kill m procs calls).2.2 =
          calls ++ (m.filter (fun e => e.2.Running)).map (fun e => SysCall.kill e.2.Cmd) := by
  induction m with
  | nil =>
    intro procs calls
    simp [stopAllLoop]
  | cons e rest ih =>
    obtain ⟨id, info⟩ := e
    intro procs calls
    by_cases hrun : info.Running = true
    · obtain ⟨h1, h2⟩ := ih (killProc procs info.Cmd (kill info.Cmd))
        (calls ++ [SysCall.kill info.Cmd])
      simp [stopAllLoop, hrun, h1, h2]
    · obtain ⟨h1, h2⟩ := ih procs calls
      have hfalse : info.Running = false := by simpa using hrun
      have hinfo : ({ info with Running := false } : ProcessInfo) = info := by
        cases info
        simp_all
      simp [stopAllLoop, hrun, h1, h2, hinfo]

/-- C14: for every world and whatever the kill calls answer, `StopAll` issues a
kill call for exactly the records that had `Running = true` (one each, on the
record's handle), and afterwards every record has `Running = false` while the
server ids, the handles and everything else of each record are unchanged;
`StopAll` returns nothing, so no answer of a kill reaches its caller. -/
theorem C14_stop_all (w : World) (kill : Cmd → Bool) :
    (StopAll w kill).calls =
        w.calls ++
          (w.pm.processes.filter (fun e => e.2.Running)).map (fun e => SysCall.kill e.2.Cmd) ∧
      (StopAll w kill).pm.processes =
        w.pm.processes.map (fun e => (e.1, { e.2 with Running := false })) ∧
      (∀ e ∈ (StopAll w kill).pm.processes, e.2.Running = false) ∧
      (StopAll w kill).pm.processes.map Prod.fst = w.pm.processes.map Prod.fst ∧
      (StopAll w kill).pm.processes.map (fun e => e.2.Cmd) =
        w.pm.processes.map (fun e => e.2.Cmd) ∧
      (StopAll w kill).pm.dataDir = w.pm.dataDir ∧
      (StopAll w kill).pm = (StopAll w (fun _ => true)).pm := by
  obtain ⟨h1, h2⟩ := stopAllLoop_spec kill w.pm.processes w.procs w.calls
  obtain ⟨h3, _⟩ := stopAllLoop_spec (fun _ => true) w.pm.processes w.procs w.calls
  refine ⟨?_, ?_, ?_, ?_, ?_, rfl, ?_⟩
  · simpa [StopAll] using h2
  · simpa [StopAll] using h1
  · intro e he
    simp only [StopAll, h1, List.mem_map] at he
    obtain ⟨x, _, hx⟩ := he
    rw [← hx]
  · simp [StopAll, h1, List.map_map, Function.comp_def]
  · simp [StopAll, h1, List.map_map, Function.comp_def]
  · simp [StopAll, h1, h3]

/-- C15: for every server id and every `n ≤ 0`, `GetLogs` returns the whole
content of the log file as it is, with no error; and for every `n`, when the
log file does not exist, `GetLogs` returns the empty string with no error. -/
theorem C15_get_logs_whole (pm : ProcessManager) (fs : String → ReadResult)
    (serverID : String) (n : Int) :
    (∀ content, fs (pm.logPath serverID) = .ok content → n ≤ 0 →
      GetLogs pm fs serverID n = (content, none)) ∧
    (fs (pm.logPath serverID) = .notExist → GetLogs pm fs serverID n = ("", none)) := by
  refine ⟨?_, ?_⟩
  · intro content hread hn
    have : ¬ (n > 0) := not_lt.mpr hn
    simp [GetLogs, hread, this]
  · intro hread
    simp [GetLogs, hread]

/-- The witness of C15: the ten-line log with `n = 0` and with `n = -5`, and a
missing log with `n = 3`. -/
theorem C15_get_logs_whole_witness :
    GetLogs (NewProcessManager "/data") (logFs tenLineLog) "s1" 0 = (tenLineLog, none) ∧
      GetLogs (NewProcessManager "/data") (logFs tenLineLog) "s1" (-5) = (tenLineLog, none) ∧
      GetLogs (NewProcessManager "/data") (fun _ => .notExist) "s1" 3 = ("", none) :=
  ⟨(C15_get_logs_whole (NewProcessManager "/data") (logFs tenLineLog) "s1" 0).1 tenLineLog rfl
      (by decide),
    (C15_get_logs_whole (NewProcessManager "/data") (logFs tenLineLog) "s1" (-5)).1 tenLineLog
      rfl (by decide),
    (C15_get_logs_whole (NewProcessManager "/data") (fun _ => .notExist) "s1" 3).2 rfl⟩

/-- C16: `Status` is a pure read: for every world and server id it leaves the
world, the registry included, unchanged; it returns `(false, 0)` when the id has
no record, and otherwise the record's `Running` flag together with the pid of
the record's handle. -/
theorem C16_status_pure (w : World) (serverID : String) :
    (StatusStep w serverID).2 = w ∧
      (StatusStep w serverID).1 = Status w serverID ∧
      (getRecord w.pm.processes serverID = none → Status w serverID = (false, 0)) ∧
      (∀ info, getRecord w.pm.processes serverID = some info →
        Status w serverID = (info.Running, info.Cmd.pid)) := by
  refine ⟨rfl, rfl, ?_, ?_⟩
  · intro hnone
    simp [Status, hnone]
  · intro info hrec
    simp [Status, hrec]

/-- The witness of C16: the three-server world, a running, a stopped and an
absent id. -/
theorem C16_status_pure_witness :
    Status threeServers "a" = (true, 10) ∧ Status threeServers "b" = (false, 11) ∧
      Status threeServers "zz" = (false, 0) :=
  have ha := (C16_status_pure threeServers "a").2.2.2
    { ServerID := "a", Cmd := { ptr := 0, pid := 10 }, LogFile := "/data/logs/a.log",
      Running := true } (by decide)
  have hb := (C16_status_pure threeServers "b").2.2.2
    { ServerID := "b", Cmd := { ptr := 1, pid := 11 }, LogFile := "/data/logs/b.log",
      Running := false } (by decide)
  have hz := (C16_status_pure threeServers "zz").2.2.1 (by decide)
  ⟨ha, hb, hz⟩

/-- The witness of C11: the tag `v0.53.0` on Linux amd64 and on Windows amd64,
and a tag without a leading `v`. -/
theorem C11_asset_pattern_witness :
    (assetPattern linuxHost "v0.53.0").1 = "frp_0.53.0_linux_amd64.tar.gz" ∧
      (assetPattern { goos := "windows", goarch := "amd64", base := unixBase } "v0.53.0") =
        ("frp_0.53.0_windows_amd64.zip", true) ∧
      withoutLeadingV "0.53.0" = "0.53.0" :=
  ⟨(C11_asset_pattern unixBase "v0.53.0" "linux" "amd64").1.trans (by decide),
    by decide,
    (C11_asset_pattern unixBase "0.53.0" "linux" "amd64").2.2.1 (by decide)⟩

/-- The witness of C14: in the world with `a` and `c` running and `b` stopped,
`StopAll` kills `a` and `c` and every record ends stopped. -/
theorem C14_stop_all_witness :
    (StopAll threeServers (fun _ => false)).calls =
        [SysCall.kill { ptr := 0, pid := 10 }, SysCall.kill { ptr := 2, pid := 12 }] ∧
      (StopAll threeServers (fun _ => false)).pm.processes.map (fun e => e.2.Running) =
        [false, false, false] :=
  ⟨(C14_stop_all threeServers (fun _ => false)).1.trans (by decide),
    by rw [(C14_stop_all threeServers (fun _ => false)).2.1]; decide⟩

/-! ## Theorems: what a failed extraction leaves behind -/

theorem writeBinary_not_opened (env : DstEnv) (body : Bytes) (readErr : Option String)
    (dst : Option Bytes) (hop : env.openErr.isNone = false) :
    (writeBinary env body readErr dst).2 = dst := by
  cases hoe : env.openErr with
  | none => simp [hoe] at hop
  | some e => simp [writeBinary, hoe]

theorem tarLoop_nomatch_dst (h : Host) (env : DstEnv) (nextErr : Option String)
    (entries : List TarEntry) (dst : Option Bytes)
    (hno : ∀ g ∈ entries, tarMatches h g = false) :
    (tarLoop h env nextErr entries dst).2 = dst := by
  induction entries with
  | nil => cases nextErr <;> rfl
  | cons g rest ih =>
    have hg := hno g (List.mem_cons_self _ _)
    have hg2 : ¬ (h.base g.Name = frpcBinaryName h ∧ g.Typeflag = tarTypeReg) := by
      intro hc
      simp [tarMatches, hc.1, hc.2] at hg
    simp only [tarLoop, hg2, if_false]
    exact ih (fun x hx => hno x (List.mem_cons_of_mem _ hx))

/-- A zip attempt that does not reach the copy leaves the install path alone. -/
theorem extractFromZip_untouched (h : Host) (env : DstEnv) (a : Archive) (dst : Option Bytes)
    (hreach : zipReachesCopy h env a = false) : (extractFromZip h env a dst).2 = dst := by
  unfold zipReachesCopy at hreach
  unfold extractFromZip
  cases hz : a.zip with
  | error e => rfl
  | ok files =>
    simp only [hz] at hreach ⊢
    cases hfind : files.find? (zipMatches h) with
    | none =>
      rw [zipLoop_none h env files dst (fun g hg => by
        have := List.find?_eq_none.mp hfind g hg
        simpa using this)]
    | some f =>
      simp only [hfind] at hreach
      obtain ⟨pre, post, hl, hpre, hf⟩ := find_split _ _ _ hfind
      rw [hl, zipLoop_first h env pre post f dst hpre hf]
      simp only [zipMatches, Bool.and_eq_true, decide_eq_true_eq, Bool.not_eq_true'] at hf
      simp only [zipLoop, hf, and_self, if_true]
      cases hfo : f.openErr with
      | some e => rfl
      | none =>
        simp only [hfo, Option.isNone_none, Bool.true_and] at hreach
        exact writeBinary_not_opened env f.body f.readErr dst hreach

/-- A tar.gz attempt that does not reach the copy leaves the install path alone. -/
theorem extractFromTarGz_untouched (h : Host) (env : DstEnv) (a : Archive)
    (dst : Option Bytes) (hreach : tarReachesCopy h env a = false) :
    (extractFromTarGz h env a dst).2 = dst := by
  unfold tarReachesCopy at hreach
  unfold extractFromTarGz
  cases hop : a.openErr with
  | some e => rfl
  | none =>
    simp only [hop] at hreach ⊢
    cases hgz : a.gzip with
    | error e => rfl
    | ok stream =>
      simp only [hgz] at hreach ⊢
      cases hfind : stream.entries.find? (tarMatches h) with
      | none =>
        exact tarLoop_nomatch_dst h env stream.nextErr stream.entries dst (fun g hg => by
          have := List.find?_eq_none.mp hfind g hg
          simpa using this)
      | some e =>
        simp only [hfind] at hreach
        obtain ⟨pre, post, hl, hpre, he⟩ := find_split _ _ _ hfind
        rw [hl, tarLoop_first h env stream.nextErr none pre post e dst hpre he]
        simp only [tarMatches, Bool.and_eq_true, decide_eq_true_eq] at he
        simp only [tarLoop, he, and_self, if_true]
        exact writeBinary_not_opened env e.body e.readErr dst hreach

/-- The counterexample to C12: the entry `frpc` of a zip fails to read after two
bytes.  `extractFrpc` returns an error, and the install path, which held four
bytes, holds the two bytes copied; an absent install path is created with
them. -/
theorem C12_counterexample :
    extractFrpc linuxHost okDst okDst brokenZip (some [0, 0, 0, 0]) =
        (some .unsupportedFormat, some [1, 2]) ∧
      extractFrpc linuxHost okDst okDst brokenZip none =
        (some .unsupportedFormat, some [1, 2]) := by
  decide

/-- C12, amended: for every archive file and every prior content of the install
path, if `extractFrpc` returns an error and neither attempt got as far as
opening the install path for a matching entry (the archive did not open in that
format, held no matching entry, the matching entry could not be opened, or the
install path could not be opened), then the file at the install path is
unchanged: not created if it was absent, and with its previous content if it
existed. -/
theorem C12_failed_before_copy_unchanged (h : Host) (envZip envTar : DstEnv) (a : Archive)
    (dst : Option Bytes) (herr : (extractFrpc h envZip envTar a dst).1 ≠ none)
    (hzip : zipReachesCopy h envZip a = false) (htar : tarReachesCopy h envTar a = false) :
    (extractFrpc h envZip envTar a dst).2 = dst := by
  have hz := extractFromZip_untouched h envZip a dst hzip
  unfold extractFrpc at herr ⊢
  cases hzr : extractFromZip h envZip a dst with
  | mk err1 dst1 =>
    rw [hzr] at hz
    simp only at hz
    subst hz
    cases err1 with
    | none => simp [hzr] at herr
    | some e1 =>
      have ht := extractFromTarGz_untouched h envTar a dst1 htar
      simp only
      cases htr : extractFromTarGz h envTar a dst1 with
      | mk err2 dst2 =>
        rw [htr] at ht
        simp only at ht
        subst ht
        cases err2 <;> rfl

/-- The witness of C12: the zip without `frpc` leaves an installed binary as it
was. -/
theorem C12_failed_before_copy_unchanged_witness :
    (extractFrpc linuxHost okDst okDst zipWithoutFrpc (some [0, 0, 0, 0])).2 =
      some [0, 0, 0, 0] :=
  C12_failed_before_copy_unchanged linuxHost okDst okDst zipWithoutFrpc (some [0, 0, 0, 0])
    (by decide) (by decide) (by decide)

/-! ## Theorems: what happens under the registry lock -/

theorem newCalls_append (w w1 : World) (added : List SysCall)
    (hcalls : w1.calls = w.calls ++ added) : newCalls w w1 = added := by
  simp [newCalls, hcalls]

/-- The system calls among the events of `Start` are the calls that `Start`
issues. -/
theorem StartEvents_calls (h : Host) (w : World) (serverID tomlContent : String)
    (env : StartEnv) :
    sysCalls (StartEvents h w serverID tomlContent env) =
      newCalls w (Start h w serverID tomlContent env).2 := by
  symm
  apply newCalls_append
  unfold Start StartEvents
  by_cases hrun : isRunning w.pm serverID = true
  · simp [hrun, sysCalls]
  · simp only [hrun, Bool.false_eq_true, if_false]
    cases env.stat with
    | some e => simp [sysCalls]
    | none =>
      cases env.write with
      | some e => simp [sysCalls]
      | none =>
        cases env.openLog with
        | some e => simp [sysCalls]
        | none =>
          cases env.spawn with
          | error e => simp [sysCalls]
          | ok pid => simp [sysCalls]

/-- The system calls among the events of `Stop` are the calls that `Stop`
issues. -/
theorem StopEvents_calls (w : World) (serverID : String) (kill : Option String) :
    sysCalls (StopEvents w serverID kill) = newCalls w (Stop w serverID kill).2 := by
  symm
  apply newCalls_append
  unfold Stop StopEvents
  cases getRecord w.pm.processes serverID with
  | none => simp [sysCalls]
  | some info =>
    by_cases hrun : info.Running = true
    · cases kill with
      | some e => simp [hrun, sysCalls]
      | none => simp [hrun, sysCalls]
    · simp [hrun, sysCalls]

theorem stopAllEvents_calls (m : List (String × ProcessInfo)) (rest : List Event) :
    sysCalls (stopAllEvents m ++ rest) =
      (m.filter (fun e => e.2.Running)).map (fun e => SysCall.kill e.2.Cmd) ++
        sysCalls rest := by
  induction m with
  | nil => simp [stopAllEvents]
  | cons e tail ih =>
    obtain ⟨id, info⟩ := e
    by_cases hrun : info.Running = true
    · simp [stopAllEvents, hrun, sysCalls, ih]
    · simp [stopAllEvents, hrun, ih]

/-- The system calls among the events of `StopAll` are the calls that `StopAll`
issues, whatever the kills answer. -/
theorem StopAllEvents_calls (w : World) (kill : Cmd → Bool) :
    sysCalls (StopAllEvents w) = newCalls w (StopAll w kill) := by
  symm
  apply newCalls_append
  have hc := (stopAllLoop_spec kill w.pm.processes w.procs w.calls).2
  have he := stopAllEvents_calls w.pm.processes [Event.unlock]
  have hs : sysCalls (StopAllEvents w) =
      (w.pm.processes.filter (fun e => e.2.Running)).map (fun e => SysCall.kill e.2.Cmd) := by
    simp [StopAllEvents, sysCalls, he]
  rw [hs]
  simpa [StopAll] using hc

/-- The system calls among the events of the monitor goroutine are the calls
that `reaper` issues. -/
theorem reaperEvents_calls (w : World) (serverID : String) (cmd : Cmd) :
    sysCalls (reaperEvents w serverID cmd) = newCalls w (reaper w serverID cmd) := by
  symm
  apply newCalls_append
  unfold reaper reaperEvents
  cases getRecord w.pm.processes serverID with
  | none => simp [sysCalls]
  | some p => by_cases hp : p.Cmd.ptr = cmd.ptr <;> simp [hp, sysCalls]

/-- The loop of `StopAll` does no blocking work under the lock exactly when no
record is running. -/
theorem stopAllEvents_clean (m : List (String × ProcessInfo)) :
    lockClean true (stopAllEvents m ++ [Event.unlock]) = true ↔
      ∀ e ∈ m, e.2.Running = false := by
  induction m with
  | nil => simp [stopAllEvents, lockClean]
  | cons e tail ih =>
    obtain ⟨id, info⟩ := e
    by_cases hrun : info.Running = true
    · simp [stopAllEvents, hrun, lockClean, Event.blocking]
    · have hfalse : info.Running = false := by simpa using hrun
      simp [stopAllEvents, hfalse, ih]

/-- The counterexample to C17: a successful `Start` on a fresh manager stats
the binary, writes the config, opens the log file, spawns the process and
writes a log line between taking the lock and releasing it; a successful `Stop`
writes its log line under the lock. -/
theorem C17_counterexample :
    StartEvents linuxHost (initWorld "/data") "s1" "cfg" (okEnv 4242) =
        [Event.lock, Event.sys (.stat "/data/frpc/frpc"),
         Event.sys (.writeFile "/data/conf/s1.toml" "cfg"),
         Event.sys (.openFile "/data/logs/s1.log"),
         Event.sys (.startProcess "/data/frpc/frpc" ["-c", "/data/conf/s1.toml"]),
         Event.logPrintf "frpc started for server s1 (PID: 4242)",
         Event.unlock] ∧
      lockClean false (StartEvents linuxHost (initWorld "/data") "s1" "cfg" (okEnv 4242)) =
        false ∧
      StopEvents oneRunning "s1" none =
        [Event.lock, Event.sys (.kill { ptr := 0, pid := 4242 }),
         Event.logPrintf "frpc stopped for server s1", Event.unlock] ∧
      lockClean false (StopEvents oneRunning "s1" none) = false := by
  decide

/-- C17, amended: in every execution of `Status` and of the exit-reaper no
blocking work is performed while the registry lock is held: `Status` calls
nothing, and the reaper waits for the process and closes the log file before it
takes the lock and writes its log line after it has released it.  `Start`,
`Stop` and `StopAll` hold the lock for their whole body: `Start` is free of
blocking work under the lock exactly when the id is already running, `Stop`
exactly when it returns an error (the id is not running, or the kill fails), and
`StopAll` exactly when no record is running; otherwise the stat, config write,
log-file open, spawn and log line of `Start`, and the log line that `Stop` and
`StopAll` write after a kill, happen under the lock.  The system calls among
the events of each operation are exactly the calls the operation issues. -/
theorem C17_lock_discipline (h : Host) (w : World) (serverID tomlContent : String)
    (env : StartEnv) (kill : Option String) (killAll : Cmd → Bool) (cmd : Cmd) :
    lockClean false StatusEvents = true ∧
      lockClean false (reaperEvents w serverID cmd) = true ∧
      (lockClean false (StartEvents h w serverID tomlContent env) = true ↔
        isRunning w.pm serverID = true) ∧
      (lockClean false (StopEvents w serverID kill) = true ↔
        (Stop w serverID kill).1 ≠ none) ∧
      (lockClean false (StopAllEvents w) = true ↔ ∀ e ∈ w.pm.processes, e.2.Running = false) ∧
      sysCalls (StartEvents h w serverID tomlContent env) =
        newCalls w (Start h w serverID tomlContent env).2 ∧
      sysCalls (StopEvents w serverID kill) = newCalls w (Stop w serverID kill).2 ∧
      sysCalls (StopAllEvents w) = newCalls w (StopAll w killAll) ∧
      sysCalls (reaperEvents w serverID cmd) = newCalls w (reaper w serverID cmd) := by
  refine ⟨rfl, ?_, ?_, ?_, ?_, StartEvents_calls h w serverID tomlContent env,
    StopEvents_calls w serverID kill, StopAllEvents_calls w killAll,
    reaperEvents_calls w serverID cmd⟩
  · simp [reaperEvents, lockClean, Event.blocking]
  · unfold StartEvents
    by_cases hrun : isRunning w.pm serverID = true
    · simp [hrun, lockClean]
    · simp [hrun, lockClean, Event.blocking]
  · unfold StopEvents Stop
    cases getRecord w.pm.processes serverID with
    | none => simp [lockClean]
    | some info =>
      by_cases hrun : info.Running = true
      · cases kill with
        | some e => simp [hrun, lockClean, Event.blocking]
        | none => simp [hrun, lockClean, Event.blocking]
      · simp [hrun, lockClean]
  · have := stopAllEvents_clean w.pm.processes
    simpa [StopAllEvents, lockClean] using this

/-- The witness of C17: on the world where `s1` runs, a second `Start` of `s1`
and a `Stop` of `s1` whose kill fails do no blocking work under the lock. -/
theorem C17_lock_discipline_witness :
    lockClean false (StartEvents linuxHost oneRunning "s1" "cfg" (okEnv 7)) = true ∧
      lockClean false (StopEvents oneRunning "s1" (some "operation not permitted")) = true ∧
      StopEvents oneRunning "s1" (some "operation not permitted") =
        [Event.lock, Event.sys (.kill { ptr := 0, pid := 4242 }), Event.unlock] :=
  ⟨(C17_lock_discipline linuxHost oneRunning "s1" "cfg" (okEnv 7) none (fun _ => true)
      { ptr := 0, pid := 4242 }).2.2.1.mpr (by decide),
    (C17_lock_discipline linuxHost oneRunning "s1" "cfg" (okEnv 7)
      (some "operation not permitted") (fun _ => true)
      { ptr := 0, pid := 4242 }).2.2.2.1.mpr (by decide),
    by decide⟩

/-! ## Theorems: installing -/

/-- The counterexample to C13: every stage up to the extraction succeeds and
the installed binary cannot be run.  The re-query fails, yet both installs
return success, with an empty version string. -/
theorem C13_counterexample :
    GetCurrentVersion unrunnableEnv (some [1, 2, 3]) =
        ("", some (.versionFailed "exec format error")) ∧
      InstallFromUpload linuxHost unrunnableEnv { binary := none, scratch := none }
          [80, 75, 3] none =
        { version := "", err := none, binary := some [1, 2, 3], scratch := none } ∧
      InstallFromGitHub linuxHost unrunnableEnv { binary := none, scratch := none } =
        { version := "", err := none, binary := some [1, 2, 3], scratch := none } := by
  decide

/-- What the shared end of the installs returns. -/
theorem extractAndReport_spec (h : Host) (env : InstallEnv) (removeOnError : Bool)
    (binary scratch : Option Bytes) :
    (∀ e binary1,
      extractFrpc h env.envZip env.envTar (env.view (scratch.getD [])) binary =
        (some e, binary1) →
      (extractAndReport h env removeOnError binary scratch).err = some e ∧
        (extractAndReport h env removeOnError binary scratch).version = "" ∧
        (extractAndReport h env removeOnError binary scratch).binary = binary1) ∧
    (∀ binary1,
      extractFrpc h env.envZip env.envTar (env.view (scratch.getD [])) binary =
        (none, binary1) →
      (extractAndReport h env removeOnError binary scratch).err = none ∧
        (extractAndReport h env removeOnError binary scratch).version =
          (GetCurrentVersion env binary1).1 ∧
        (extractAndReport h env removeOnError binary scratch).binary = binary1) := by
  refine ⟨?_, ?_⟩
  · intro e binary1 hex
    simp [extractAndReport, hex]
  · intro binary1 hex
    simp [extractAndReport, hex]

/-- Whether the scratch file is removed after a failed extraction changes
neither the error, nor the version string, nor the installed binary. -/
theorem extractAndReport_flag (h : Host) (env : InstallEnv) (flag1 flag2 : Bool)
    (binary scratch : Option Bytes) :
    (extractAndReport h env flag1 binary scratch).err =
        (extractAndReport h env flag2 binary scratch).err ∧
      (extractAndReport h env flag1 binary scratch).version =
        (extractAndReport h env flag2 binary scratch).version ∧
      (extractAndReport h env flag1 binary scratch).binary =
        (extractAndReport h env flag2 binary scratch).binary := by
  unfold extractAndReport
  cases hex : extractFrpc h env.envZip env.envTar (env.view (scratch.getD [])) binary with
  | mk err binary1 =>
    cases err with
    | some e => simp
    | none => simp

/-- C13, amended: `InstallFromGitHub` and `InstallFromUpload` return the error
of the first stage that fails among metadata fetch, asset selection, download,
scratch write and extraction, with an empty version string, and this does not
depend on what the removal of the scratch file answers; they return success
exactly when all these stages succeed, and then together with the string that
the re-query of the installed binary returns.  The error of that re-query is
dropped: when it fails, the string is empty and the call still succeeds. -/
theorem C13_install_stages (h : Host) (env : InstallEnv) (st : InstallState) (body : Bytes)
    (readErr : Option String) :
    (∀ e scratch1, writeBinary env.scratch body readErr st.scratch = (some e, scratch1) →
      InstallFromUpload h env st body readErr =
        { version := "", err := some e, binary := st.binary, scratch := scratch1 }) ∧
    (∀ scratch1 e binary1,
      writeBinary env.scratch body readErr st.scratch = (none, scratch1) →
      extractFrpc h env.envZip env.envTar (env.view (scratch1.getD [])) st.binary =
        (some e, binary1) →
      (InstallFromUpload h env st body readErr).err = some e ∧
        (InstallFromUpload h env st body readErr).version = "") ∧
    (∀ scratch1 binary1,
      writeBinary env.scratch body readErr st.scratch = (none, scratch1) →
      extractFrpc h env.envZip env.envTar (env.view (scratch1.getD [])) st.binary =
        (none, binary1) →
      (InstallFromUpload h env st body readErr).err = none ∧
        (InstallFromUpload h env st body readErr).version =
          (GetCurrentVersion env binary1).1 ∧
        (InstallFromUpload h env st body readErr).binary = binary1) ∧
    ((InstallFromUpload h env st body readErr).err = none →
      ∃ scratch1 binary1,
        writeBinary env.scratch body readErr st.scratch = (none, scratch1) ∧
        extractFrpc h env.envZip env.envTar (env.view (scratch1.getD [])) st.binary =
          (none, binary1) ∧
        (InstallFromUpload h env st body readErr).version =
          (GetCurrentVersion env binary1).1) ∧
    (∀ e, GetLatestRelease env = .error e →
      InstallFromGitHub h env st =
        { version := "", err := some e, binary := st.binary, scratch := st.scratch }) ∧
    (∀ release e, GetLatestRelease env = .ok release → selectAsset h release = .error e →
      InstallFromGitHub h env st =
        { version := "", err := some e, binary := st.binary, scratch := st.scratch }) ∧
    (∀ release url e, GetLatestRelease env = .ok release → selectAsset h release = .ok url →
      downloadAsset env url = .error e →
      InstallFromGitHub h env st =
        { version := "", err := some e, binary := st.binary, scratch := st.scratch }) ∧
    (∀ release url resp, GetLatestRelease env = .ok release →
      selectAsset h release = .ok url → downloadAsset env url = .ok resp →
      (InstallFromGitHub h env st).err = (InstallFromUpload h env st resp.Body resp.bodyErr).err ∧
        (InstallFromGitHub h env st).version =
          (InstallFromUpload h env st resp.Body resp.bodyErr).version ∧
        (InstallFromGitHub h env st).binary =
          (InstallFromUpload h env st resp.Body resp.bodyErr).binary) ∧
    ((InstallFromGitHub h env st).err = none →
      ∃ release url resp, GetLatestRelease env = .ok release ∧
        selectAsset h release = .ok url ∧ downloadAsset env url = .ok resp ∧
        (InstallFromUpload h env st resp.Body resp.bodyErr).err = none) ∧
    (∀ binary, (GetCurrentVersion env binary).2 ≠ none → (GetCurrentVersion env binary).1 = "") ∧
    (∀ answer,
      (InstallFromUpload h { env with remove := answer } st body readErr).err =
          (InstallFromUpload h env st body readErr).err ∧
        (InstallFromUpload h { env with remove := answer } st body readErr).version =
          (InstallFromUpload h env st body readErr).version ∧
        (InstallFromUpload h { env with remove := answer } st body readErr).binary =
          (InstallFromUpload h env st body readErr).binary) ∧
    (∀ answer,
      (InstallFromGitHub h { env with remove := answer } st).err =
          (InstallFromGitHub h env st).err ∧
        (InstallFromGitHub h { env with remove := answer } st).version =
          (InstallFromGitHub h env st).version ∧
        (InstallFromGitHub h { env with remove := answer } st).binary =
          (InstallFromGitHub h env st).binary) := by
  refine ⟨?_, ?_, ?_, ?_, ?_, ?_, ?_, ?_, ?_, ?_, ?_, ?_⟩
  · intro e scratch1 hw
    simp [InstallFromUpload, hw]
  · intro scratch1 e binary1 hw hex
    have := (extractAndReport_spec h env true st.binary scratch1).1 e binary1 hex
    simp only [InstallFromUpload, hw]
    exact ⟨this.1, this.2.1⟩
  · intro scratch1 binary1 hw hex
    have := (extractAndReport_spec h env true st.binary scratch1).2 binary1 hex
    simp only [InstallFromUpload, hw]
    exact this
  · intro hnone
    unfold InstallFromUpload at hnone ⊢
    cases hw : writeBinary env.scratch body readErr st.scratch with
    | mk err1 scratch1 =>
      cases err1 with
      | some e => simp [hw] at hnone
      | none =>
        simp only [hw] at hnone ⊢
        cases hex : extractFrpc h env.envZip env.envTar (env.view (scratch1.getD []))
            st.binary with
        | mk err2 binary1 =>
          cases err2 with
          | some e =>
            have := (extractAndReport_spec h env true st.binary scratch1).1 e binary1 hex
            rw [this.1] at hnone
            cases hnone
          | none =>
            have := (extractAndReport_spec h env true st.binary scratch1).2 binary1 hex
            exact ⟨scratch1, binary1, rfl, hex, this.2.1⟩
  · intro e hl
    simp [InstallFromGitHub, hl]
  · intro release e hl hs
    simp [InstallFromGitHub, hl, hs]
  · intro release url e hl hs hd
    simp [InstallFromGitHub, hl, hs, hd]
  · intro release url resp hl hs hd
    simp only [InstallFromGitHub, hl, hs, hd, InstallFromUpload]
    cases hw : writeBinary env.scratch resp.Body resp.bodyErr st.scratch with
    | mk err1 scratch1 =>
      cases err1 with
      | some e => simp
      | none =>
        simp only
        cases hex : extractFrpc h env.envZip env.envTar (env.view (scratch1.getD []))
            st.binary with
        | mk err2 binary1 =>
          cases err2 with
          | some e => simp [extractAndReport, hex]
          | none => simp [extractAndReport, hex]
  · intro hnone
    unfold InstallFromGitHub at hnone
    cases hl : GetLatestRelease env with
    | error e => simp [hl] at hnone
    | ok release =>
      simp only [hl] at hnone
      cases hs : selectAsset h release with
      | error e => simp [hs] at hnone
      | ok url =>
        simp only [hs] at hnone
        cases hd : downloadAsset env url with
        | error e => simp [hd] at hnone
        | ok resp =>
          simp only [hd] at hnone
          refine ⟨release, url, resp, rfl, hs, hd, ?_⟩
          unfold InstallFromUpload
          cases hw : writeBinary env.scratch resp.Body resp.bodyErr st.scratch with
          | mk err1 scratch1 =>
            cases err1 with
            | some e => simp [hw] at hnone
            | none =>
              simp only [hw] at hnone ⊢
              rw [← hnone]
              exact (extractAndReport_flag h env true false st.binary scratch1).1
  · intro binary hfail
    unfold GetCurrentVersion at hfail ⊢
    cases binary with
    | none => rfl
    | some content =>
      cases hr : env.run content with
      | error e => simp [hr]
      | ok out => simp [hr] at hfail
  · intro answer
    unfold InstallFromUpload
    cases hw : writeBinary env.scratch body readErr st.scratch with
    | mk err1 scratch1 =>
      cases err1 with
      | some e => simp
      | none =>
        simp only
        cases hex : extractFrpc h env.envZip env.envTar (env.view (scratch1.getD []))
            st.binary with
        | mk err2 binary1 =>
          cases err2 with
          | some e => simp [extractAndReport, hex]
          | none => simp [extractAndReport, hex, GetCurrentVersion]
  · intro answer
    have hl : GetLatestRelease { env with remove := answer } = GetLatestRelease env := rfl
    have hd : ∀ url, downloadAsset { env with remove := answer } url = downloadAsset env url :=
      fun _ => rfl
    unfold InstallFromGitHub
    rw [hl]
    cases GetLatestRelease env with
    | error e => simp
    | ok release =>
      simp only
      cases selectAsset h release with
      | error e => simp
      | ok url =>
        simp only [hd]
        cases downloadAsset env url with
        | error e => simp
        | ok resp =>
          simp only
          cases hw : writeBinary env.scratch resp.Body resp.bodyErr st.scratch with
          | mk err1 scratch1 =>
            cases err1 with
            | some e => simp
            | none =>
              simp only
              cases hex : extractFrpc h env.envZip env.envTar (env.view (scratch1.getD []))
                  st.binary with
              | mk err2 binary1 =>
                cases err2 with
                | some e => simp [extractAndReport, hex]
                | none => simp [extractAndReport, hex, GetCurrentVersion]

/-- The witness of C13: in the world where everything succeeds both installs
return the trimmed output of the installed binary, and with a download that
answers 404 the network install returns the error of the download. -/
theorem C13_install_stages_witness :
    (InstallFromUpload linuxHost goodInstallEnv { binary := none, scratch := none }
        [80, 75, 3] none).version = "0.53.0" ∧
      InstallFromGitHub linuxHost
          { goodInstallEnv with
            download := fun _ => .ok { StatusCode := 404, Body := [], bodyErr := none } }
          { binary := some [0], scratch := none } =
        { version := "", err := some (.downloadStatus 404), binary := some [0],
          scratch := none } :=
  ⟨((C13_install_stages linuxHost goodInstallEnv { binary := none, scratch := none }
        [80, 75, 3] none).2.2.1 (some [80, 75, 3]) (some [1, 2, 3])
        (by decide) (by decide)).2.1.trans (by decide),
    (C13_install_stages linuxHost
        { goodInstallEnv with
          download := fun _ => .ok { StatusCode := 404, Body := [], bodyErr := none } }
        { binary := some [0], scratch := none } [] none).2.2.2.2.2.2.1
      exampleRelease "https://example.org/frp_0.53.0_linux_amd64.tar.gz"
      (.downloadStatus 404) rfl rfl rfl⟩

end FnosFrpc
